import Mathlib

/-!
# Verification development for `src/searcher.h` (CryptoMiniSat `Searcher`)

Shallow embedding of the inline member functions of `Searcher`:
`var_inside_assumptions`, `lit_inside_assumptions`, `AssumptionPair`,
`SearchParams`, `abstractLevel`, `insert_var_order`, `bump_cl_act`,
`decayClauseAct`, `pick_polarity` and `vsids_bump_var_act`; `luby`, which
`searcher.h` only declares, is modelled from the specification.

Conventions of the embedding.
* `double`/`float` scores: `vsids_bump_var_act_fp` and `bump_cl_act_fp` take the
  arithmetic of the two machine types as a parameter (`FloatOps`), so rounding,
  overflow, infinities and NaN are those of the machine. `ieee` is the
  arithmetic of IEEE 754 binary64 and binary32 (round to nearest, ties to even,
  gradual underflow, overflow to infinity, NaN); bounds are proved from the
  facts collected in `IEEELaws`, which `ieee` satisfies (`ieee_laws`). The
  definitions `vsids_bump_var_act`, `bump_cl_act` and `decayClauseAct` read the
  scores as exact rationals (`ℚ`) with the exact powers of ten; they are used
  for the statement that stipulates exact arithmetic and for the early return
  of the `update_bogoprops` variants only.
* `std::vector` members are lists; `v[i]` is `List.getD` and `v[i] = e` is
  `List.set`; theorems that depend on an index being in range say so.
* `template<bool update_bogoprops>` is an explicit `Bool` argument.
* A failed `assert` is the result `none`.
* Classes declared in headers other than `searcher.h` (`Heap`, `MTRand`) are
  taken as parameters: a carrier type plus the operations that `searcher.h`
  calls on it.
-/

namespace CMSat

/-! ## Types declared in other headers -/

/-- Modelled from the spec: `lbool` is declared in `solvertypes.h`; spec §3 describes it as
the truth value "true/false/unassigned". -/
inductive lbool where
  | l_True
  | l_False
  | l_Undef
deriving DecidableEq, Repr

/-- Modelled from the spec: `lbool::operator^(bool)` of `solvertypes.h`; xor-ing with `true`
swaps true and false, xor-ing with `false` is the identity, and an undefined value stays
undefined. -/
def lbool.xor (v : lbool) (b : Bool) : lbool :=
  match v, b with
  | lbool.l_True, true => lbool.l_False
  | lbool.l_False, true => lbool.l_True
  | v, _ => v

/-- Modelled from the spec: `Lit` is declared in `solvertypes.h`; spec §3: "a variable
identifier plus a sign bit; negation is a pure bit-flip". The word `x` is `2*var + sign`. -/
structure Lit where
  x : Nat
deriving DecidableEq, Repr

/-- Embeds `Lit(var, is_inverted)`: the word `var + var + is_inverted`. -/
def Lit.ofVar (var : Nat) (is_inverted : Bool) : Lit :=
  ⟨var + var + (if is_inverted then 1 else 0)⟩

/-- Embeds `Lit::var()`: `x >> 1`. -/
def Lit.var (l : Lit) : Nat := l.x >>> 1

/-- Embeds `Lit::sign()`: `x & 1`. -/
def Lit.sign (l : Lit) : Bool := (l.x &&& 1) != 0

/-- Embeds `Lit::operator~`: `Lit(x ^ 1)`. -/
def Lit.neg (l : Lit) : Lit := ⟨l.x ^^^ 1⟩

/-- Embeds `Lit::operator<`: comparison of the words. -/
def Lit.lt (a b : Lit) : Bool := decide (a.x < b.x)

/-- The cases of `enum class branch` that `insert_var_order` switches over. -/
inductive branch where
  | vsids
  | maple
  | vmtf
  | rnd
deriving DecidableEq, Repr

/-- The cases of `enum class PolarityMode` that `pick_polarity` switches over;
`polarmode_weighted` is only handled when `WEIGHTED_SAMPLING` is defined. -/
inductive PolarityMode where
  | polarmode_pos
  | polarmode_neg
  | polarmode_rnd
  | polarmode_automatic
  | polarmode_weighted
deriving DecidableEq, Repr

/-- Modelled from the spec: `enum class Restart` is declared in `solverconf.h`; the restart
policies of spec §4.5 plus the tag `never` that `SearchParams` initialises `rest_type` to. -/
inductive Restart where
  | glue
  | geom
  | glue_geom
  | luby
  | never
deriving DecidableEq, Repr

/-- The fields of `VarData` that `searcher.h` reads. -/
structure VarData where
  level : Nat
  polarity : Bool
  assumption : lbool
deriving DecidableEq, Repr

instance : Inhabited VarData := ⟨⟨0, false, lbool.l_Undef⟩⟩

/-- The fields of `SolverConf` that `searcher.h` reads. -/
structure SolverConf where
  polarity_mode : PolarityMode
  clause_decay : ℚ

/-- The operations of `Heap<VarOrderLt>` (declared in `heap.h`) that `searcher.h` calls.
The comparator of the heap reads the activity vector, which is therefore an argument of the
operations that move elements. -/
structure HeapOps (H : Type) where
  inHeap : H → Nat → Bool
  insert : List ℚ → H → Nat → H
  decrease : List ℚ → H → Nat → H

/-- The operation of `MTRand` (declared in `MersenneTwister.h`) that `searcher.h` calls:
`randInt(n)` returns a number and advances the generator. -/
structure RandOps (R : Type) where
  randInt : R → Nat → Nat × R

/-- The VMTF queue of the propagation engine: list ends, the `unassigned` cursor and the bump
stamp of the cursor. -/
structure VmtfQueue where
  first : Nat
  last : Nat
  unassigned : Nat
  vmtf_bumped : Nat
deriving DecidableEq, Repr

/-- The fields of `Clause` that `bump_cl_act` touches: the removed flag and
`stats.activity`. -/
structure Clause where
  removed : Bool
  activity : ℚ

instance : Inhabited Clause := ⟨⟨false, 0⟩⟩

/-! ## `AssumptionPair` -/

/-- Embeds `struct AssumptionPair`. -/
structure AssumptionPair where
  lit_outer : Lit
  lit_orig_outside : Lit
deriving DecidableEq, Repr

/-- Embeds `AssumptionPair::operator==`. -/
def AssumptionPair.eq (a other : AssumptionPair) : Bool :=
  (other.lit_outer == a.lit_outer) && (other.lit_orig_outside == a.lit_orig_outside)

/-- Embeds `AssumptionPair::operator<`: `~lit_outer < ~other.lit_outer`. -/
def AssumptionPair.lt (a other : AssumptionPair) : Bool :=
  Lit.lt a.lit_outer.neg other.lit_outer.neg

/-! ## `SearchParams` -/

/-- Embeds `struct SearchParams`. -/
structure SearchParams where
  needToStopSearch : Bool
  conflictsDoneThisRestart : Nat
  max_confl_to_do : Nat
  rest_type : Restart
deriving DecidableEq, Repr

/-- Embeds `SearchParams::clear()`. -/
def SearchParams.clear (p : SearchParams) : SearchParams :=
  { p with needToStopSearch := false, conflictsDoneThisRestart := 0 }

/-- Embeds `SearchParams::SearchParams()`: `rest_type` has the default member initialiser
`Restart::never`, the other three members are not initialised (their indeterminate values
are the arguments), and the body calls `clear()`. -/
def SearchParams.construct (stop0 : Bool) (confl0 max0 : Nat) : SearchParams :=
  SearchParams.clear ⟨stop0, confl0, max0, Restart.never⟩

/-! ## The `Searcher` state -/

/-- The members of `Searcher` (and of its base classes) that the inline functions of
`searcher.h` read or write. `H` is the heap class, `R` the random number generator. -/
structure Searcher (H R : Type) where
  conf : SolverConf
  varData : List VarData
  mtrand : R
  branch_strategy : branch
  var_act_vsids : List ℚ
  var_act_maple : List ℚ
  max_vsids_act : ℚ
  var_inc_vsids : ℚ
  order_heap_vsids : H
  order_heap_maple : H
  vmtf_queue : VmtfQueue
  vmtf_btab : List Nat
  order_heap_rnd : List Nat
  order_heap_rnd_inside : List Nat
  cl_alloc : List Clause
  longRedCls0 : List Nat
  longRedCls1 : List Nat
  longRedCls2 : List Nat
  cla_inc : ℚ
  max_cl_act : ℚ
  params : SearchParams

variable {H R : Type}

/-- Embeds `nVars()`. -/
def Searcher.nVars (s : Searcher H R) : Nat := s.varData.length

/-! ## Assumption queries -/

/-- Embeds `Searcher::var_inside_assumptions`. -/
def var_inside_assumptions (s : Searcher H R) (var : Nat) : lbool :=
  (s.varData.getD var default).assumption

/-- Embeds `Searcher::lit_inside_assumptions`. -/
def lit_inside_assumptions (s : Searcher H R) (lit : Lit) : lbool :=
  if (s.varData.getD lit.var default).assumption = lbool.l_Undef then
    lbool.l_Undef
  else
    let val := (s.varData.getD lit.var default).assumption
    val.xor lit.sign

/-! ## `abstractLevel` -/

/-- Embeds `Searcher::abstractLevel`: `((uint32_t)1) << (varData[x].level & 31)`, a 32-bit word. -/
def abstractLevel (s : Searcher H R) (x : Nat) : Nat :=
  (1 <<< ((s.varData.getD x default).level &&& 31)) % 2 ^ 32

/-! ## `insert_var_order` -/

/-- Modelled from the spec: `vmtf_update_queue_unassigned` is declared in `propengine.h`.
The comment in `insert_var_order` says it updates the `queue.unassigned` pointer; it
makes `x` the cursor and records the bump stamp of `x`. -/
def vmtf_update_queue_unassigned (s : Searcher H R) (x : Nat) : Searcher H R :=
  { s with vmtf_queue :=
      { s.vmtf_queue with unassigned := x, vmtf_bumped := s.vmtf_btab.getD x 0 } }

/-- Embeds `Searcher::insert_var_order(x, type)`. -/
def insert_var_order_type (ops : HeapOps H) (s : Searcher H R) (x : Nat) (type : branch) :
    Searcher H R :=
  match type with
  | branch.vsids =>
    if !ops.inHeap s.order_heap_vsids x then
      { s with order_heap_vsids := ops.insert s.var_act_vsids s.order_heap_vsids x }
    else s
  | branch.maple =>
    if !ops.inHeap s.order_heap_maple x then
      { s with order_heap_maple := ops.insert s.var_act_maple s.order_heap_maple x }
    else s
  | branch.vmtf =>
    if s.vmtf_queue.vmtf_bumped < s.vmtf_btab.getD x 0 then
      vmtf_update_queue_unassigned s x
    else s
  | branch.rnd =>
    if s.order_heap_rnd_inside.getD x 0 = 0 then
      { s with
        order_heap_rnd_inside := s.order_heap_rnd_inside.set x 1,
        order_heap_rnd := s.order_heap_rnd ++ [x] }
    else s

/-- Embeds `Searcher::insert_var_order(x)`. -/
def insert_var_order (ops : HeapOps H) (s : Searcher H R) (x : Nat) : Searcher H R :=
  insert_var_order_type ops s x s.branch_strategy

/-! ## Clause activities

The definitions of this section read the `float` activity and the `double` members as exact
rationals; `bump_cl_act_fp` further down embeds `bump_cl_act` in machine arithmetic. -/

/-- The statement `cl_alloc.ptr(offs)->stats.activity *= static_cast<float>(1e-20)`. -/
def scale_cl_act (alloc : List Clause) (offs : Nat) : List Clause :=
  alloc.set offs { alloc.getD offs default with
    activity := (alloc.getD offs default).activity * (1 / 10 ^ 20) }

/-- Embeds `Searcher::bump_cl_act<update_bogoprops>(cl)` in the default build (neither
`STATS_NEEDED` nor `FINAL_PREDICTOR`); `cl` is the offset of the clause in `cl_alloc`. -/
def bump_cl_act (update_bogoprops : Bool) (s : Searcher H R) (cl : Nat) :
    Option (Searcher H R) :=
  if update_bogoprops then some s
  else if (s.cl_alloc.getD cl default).removed then none
  else
    let new_val := s.cla_inc + (s.cl_alloc.getD cl default).activity
    let s1 : Searcher H R :=
      { s with
        cl_alloc := s.cl_alloc.set cl { s.cl_alloc.getD cl default with activity := new_val },
        max_cl_act := if s.max_cl_act < new_val then new_val else s.max_cl_act }
    if (s1.cl_alloc.getD cl default).activity > 10 ^ 20 then
      let s2 : Searcher H R :=
        { s1 with
          cl_alloc := s1.longRedCls2.foldl scale_cl_act s1.cl_alloc,
          cla_inc := s1.cla_inc * (1 / 10 ^ 20),
          max_cl_act := s1.max_cl_act * (1 / 10 ^ 20) }
      if s2.cla_inc ≠ 0 then some s2 else none
    else some s1

/-- Embeds `Searcher::decayClauseAct<update_bogoprops>()`. -/
def decayClauseAct (update_bogoprops : Bool) (s : Searcher H R) : Searcher H R :=
  if update_bogoprops then s
  else { s with cla_inc := s.cla_inc * (1 / s.conf.clause_decay) }

/-! ## `pick_polarity` -/

/-- Embeds `Searcher::pick_polarity(var)`: the chosen polarity and the state afterwards (the random
mode advances `mtrand`); `none` is the `assert(false)` of the `default:` label. -/
def pick_polarity (rnd : RandOps R) (s : Searcher H R) (var : Nat) :
    Option (Bool × Searcher H R) :=
  match s.conf.polarity_mode with
  | PolarityMode.polarmode_neg => some (false, s)
  | PolarityMode.polarmode_pos => some (true, s)
  | PolarityMode.polarmode_rnd =>
    let r := rnd.randInt s.mtrand 1
    some (r.1 != 0, { s with mtrand := r.2 })
  | PolarityMode.polarmode_automatic => some ((s.varData.getD var default).polarity, s)
  | PolarityMode.polarmode_weighted => none

/-! ## `vsids_bump_var_act`

The definitions of this section read `double` as exact rationals; `vsids_bump_var_act_fp`
further down embeds the function in machine arithmetic. -/

/-- First part of `vsids_bump_var_act`: `var_act_vsids[var] += var_inc_vsids * mult` and the
update of `max_vsids_act`. -/
def vsids_add_inc (s : Searcher H R) (var : Nat) (mult : ℚ) : Searcher H R :=
  let acts := s.var_act_vsids.set var (s.var_act_vsids.getD var 0 + s.var_inc_vsids * mult)
  { s with
    var_act_vsids := acts,
    max_vsids_act :=
      if s.max_vsids_act < acts.getD var 0 then acts.getD var 0 else s.max_vsids_act }

/-- The rescale block of `vsids_bump_var_act`: every activity, `max_vsids_act` and
`var_inc_vsids` are multiplied by `1e-100`. -/
def vsids_rescale (s : Searcher H R) : Searcher H R :=
  { s with
    var_act_vsids := s.var_act_vsids.map (fun act => act * (1 / 10 ^ 100)),
    max_vsids_act := s.max_vsids_act * (1 / 10 ^ 100),
    var_inc_vsids := s.var_inc_vsids * (1 / 10 ^ 100) }

/-- The test `var_act_vsids[var] > 1e100` that guards the rescale block. -/
def vsids_rescale_fires (s : Searcher H R) (var : Nat) : Bool :=
  decide (s.var_act_vsids.getD var 0 > 10 ^ 100)

/-- Last part of `vsids_bump_var_act`: `order_heap_vsids.decrease(var)` when `var` is in the
heap. -/
def vsids_heap_update (ops : HeapOps H) (s : Searcher H R) (var : Nat) : Searcher H R :=
  if ops.inHeap s.order_heap_vsids var then
    { s with order_heap_vsids := ops.decrease s.var_act_vsids s.order_heap_vsids var }
  else s

/-- Embeds `Searcher::vsids_bump_var_act<update_bogoprops>(var, mult)`. -/
def vsids_bump_var_act (ops : HeapOps H) (update_bogoprops : Bool) (s : Searcher H R)
    (var : Nat) (mult : ℚ) : Searcher H R :=
  if update_bogoprops then s
  else
    let s1 := vsids_add_inc s var mult
    let s2 := if vsids_rescale_fires s1 var then vsids_rescale s1 else s1
    vsids_heap_update ops s2 var

/-! ## `luby` -/

/-- Modelled from the spec: the body of `Searcher::luby(double y, int x)` is in
`searcher.cpp`; `searcher.h` only declares it. Spec §4.5: the schedule "follows the standard
recursive doubling definition". This is the exponent of that definition for the index
`x ≥ 1`: with `k` the number of binary digits of `x`, it is `k - 1` when `x = 2^k - 1`, and
otherwise the exponent at `x - 2^(k-1) + 1`. The first argument bounds the number of
recursive steps. -/
def luby_seq_aux : Nat → Nat → Nat
  | 0, _ => 0
  | fuel + 1, x =>
    if x + 1 = 2 ^ (Nat.log2 x + 1) then Nat.log2 x
    else luby_seq_aux fuel (x - 2 ^ Nat.log2 x + 1)

/-- Modelled from the spec: the exponent of the Luby schedule at index `x`; the index itself
is enough fuel, since every recursive step makes the index smaller. -/
def luby_seq (x : Nat) : Nat := luby_seq_aux x x

/-- Modelled from the spec: `luby(y, x)` of `searcher.cpp` (declared in `searcher.h`), the
restart interval at index `x` for the doubling base `y`: `y` to the power `luby_seq x`. -/
def luby (y : ℚ) (x : Nat) : ℚ := y ^ luby_seq x

/-! ## Sample instances of the parameters, used to evaluate the definitions -/

/-- A heap instance for concrete evaluation: the heap is the list of its elements, `insert`
puts the element in front and `decrease` leaves the list as it is. -/
def sampleHeap : HeapOps (List Nat) where
  inHeap h x := h.contains x
  insert _ h x := x :: h
  decrease _ h _ := h

/-- A generator instance for concrete evaluation: `randInt n` returns the state modulo
`n + 1` and steps the state by a linear congruence. -/
def sampleRand : RandOps Nat where
  randInt r n := (r % (n + 1), (r * 1103515245 + 12345) % 2 ^ 31)

/-- A concrete state with three variables, used by the evaluations below. -/
def sampleState : Searcher (List Nat) Nat where
  conf := ⟨PolarityMode.polarmode_automatic, 999 / 1000⟩
  varData := [⟨0, true, lbool.l_Undef⟩, ⟨33, false, lbool.l_True⟩, ⟨1, true, lbool.l_False⟩]
  mtrand := 7
  branch_strategy := branch.vsids
  var_act_vsids := [10 ^ 100, 5, 0]
  var_act_maple := [0, 0, 0]
  max_vsids_act := 10 ^ 100
  var_inc_vsids := 1
  order_heap_vsids := [0, 1]
  order_heap_maple := []
  vmtf_queue := ⟨0, 2, 1, 4⟩
  vmtf_btab := [3, 4, 5]
  order_heap_rnd := [1]
  order_heap_rnd_inside := [0, 1, 0]
  cl_alloc := [⟨false, 10 ^ 20⟩, ⟨false, 3⟩, ⟨true, 1⟩]
  longRedCls0 := [0]
  longRedCls1 := []
  longRedCls2 := [1]
  cla_inc := 1
  max_cl_act := 10 ^ 20
  params := ⟨true, 17, 100, Restart.luby⟩

/-! ## Machine arithmetic as a parameter

The definitions above read `double` and `float` as exact rationals; that reading is used
where a statement stipulates exact arithmetic and for the early return of the
`update_bogoprops` variants. The definitions below embed `vsids_bump_var_act` and
`bump_cl_act` again with the arithmetic of the two machine types as a parameter, so that
rounding, absorption, overflow, infinities and NaN are whatever they are on the machine.
Every operator of the source is one operation of the parameter: the product and the sum of
`var_act_vsids[var] += var_inc_vsids * mult` are rounded one after the other. The arithmetic
`ieee` defined further down is the instance for IEEE 754 binary64 and binary32. -/

/-- The arithmetic of the C++ types `double` (carrier `D`) and `float` (carrier `F`): the
operators and conversions that `vsids_bump_var_act` and `bump_cl_act` apply, the comparison
`<=` in which bounds on activities are stated, and the values of the literals `0`, `1e100`,
`1e-100`, `1e20`, `1e-20` (as `double`), `0`, `1e20F` and `static_cast<float>(1e-20)` (as
`float`). The C++ test `a > b` is `dlt b a` (respectively `flt b a`). -/
structure FloatOps (D F : Type) where
  dadd : D → D → D
  dmul : D → D → D
  dlt : D → D → Bool
  dle : D → D → Bool
  dne : D → D → Bool
  d0 : D
  d1e100 : D
  d1em100 : D
  d1e20 : D
  d1em20 : D
  fmul : F → F → F
  flt : F → F → Bool
  fle : F → F → Bool
  f0 : F
  f1e20 : F
  f1em20 : F
  toFloat : D → F
  toDouble : F → D

/-- Facts of IEEE 754 arithmetic (round to nearest) about the operations of `FloatOps`, in
the form in which proofs about bounds use them. A comparison `<=` that holds has operands
that are not NaN, so `dle a a` says that `a` is not NaN. Each field is proved for the
arithmetic `ieee` of binary64 `double` and binary32 `float` (theorem `ieee_laws`): `<=` is
transitive and total on values that are not NaN,
`<` implies `<=`, rounding is monotone (for the product with the positive constants `1e-100`
and `static_cast<float>(1e-20)`, for the sum of values that are not negative and for the two
conversions), `small_inc_absorbed` says that a `double` `a ≥ 0` whose product with `1e-20`
is zero (so `a < 2^-1008`) does not lift a `float` of `[0, 1e20F]` above `1e20F` (the sum
rounds to the `float` itself, or to a number below the smallest positive `float`), and the
remaining fields are evaluations at the literals. -/
structure IEEELaws {D F : Type} (fl : FloatOps D F) : Prop where
  dle_trans : ∀ a b c, fl.dle a b = true → fl.dle b c = true → fl.dle a c = true
  dle_of_dlt : ∀ a b, fl.dlt a b = true → fl.dle a b = true
  dle_left : ∀ a b, fl.dle a b = true → fl.dle a a = true
  dle_right : ∀ a b, fl.dle a b = true → fl.dle b b = true
  dle_of_not_dlt : ∀ a b, fl.dle a a = true → fl.dle b b = true → fl.dlt a b = false →
    fl.dle b a = true
  dmul_mono : ∀ a b, fl.dle a b = true →
    fl.dle (fl.dmul a fl.d1em100) (fl.dmul b fl.d1em100) = true
  dadd_mono : ∀ a b c d, fl.dle fl.d0 a = true → fl.dle a b = true →
    fl.dle fl.d0 c = true → fl.dle c d = true → fl.dle (fl.dadd a c) (fl.dadd b d) = true
  dadd_zero : fl.dle fl.d0 (fl.dadd fl.d0 fl.d0) = true
  dmul_zero : fl.dle fl.d0 (fl.dmul fl.d0 fl.d1em100) = true
  d1e100_scaled : fl.dle (fl.dmul fl.d1e100 fl.d1em100) fl.d1e100 = true
  d1e100_twice_scaled :
    fl.dle (fl.dmul (fl.dadd fl.d1e100 fl.d1e100) fl.d1em100) fl.d1e100 = true
  fle_trans : ∀ a b c, fl.fle a b = true → fl.fle b c = true → fl.fle a c = true
  fle_left : ∀ a b, fl.fle a b = true → fl.fle a a = true
  fle_of_not_flt : ∀ a b, fl.fle a a = true → fl.fle b b = true → fl.flt a b = false →
    fl.fle b a = true
  fmul_mono : ∀ a b, fl.fle a b = true →
    fl.fle (fl.fmul a fl.f1em20) (fl.fmul b fl.f1em20) = true
  toFloat_mono : ∀ a b, fl.dle a b = true → fl.fle (fl.toFloat a) (fl.toFloat b) = true
  toDouble_mono : ∀ a b, fl.fle a b = true → fl.dle (fl.toDouble a) (fl.toDouble b) = true
  toDouble_zero : fl.dle fl.d0 (fl.toDouble fl.f0) = true
  f1e20_le_sum :
    fl.fle fl.f1e20 (fl.toFloat (fl.dadd fl.d1e20 (fl.toDouble fl.f1e20))) = true
  sum_scaled :
    fl.fle (fl.fmul (fl.toFloat (fl.dadd fl.d1e20 (fl.toDouble fl.f1e20))) fl.f1em20)
      fl.f1e20 = true
  small_inc_absorbed : ∀ a f, fl.dle fl.d0 a = true →
    fl.dne (fl.dmul a fl.d1em20) fl.d0 = false →
    fl.fle fl.f0 f = true → fl.fle f fl.f1e20 = true →
    fl.flt fl.f1e20 (fl.toFloat (fl.dadd a (fl.toDouble f))) = false

/-- The operations of `Heap<VarOrderLt>` (declared in `heap.h`) that `vsids_bump_var_act`
calls, over activities of type `D`. -/
structure HeapOpsFP (H D : Type) where
  inHeap : H → Nat → Bool
  decrease : List D → H → Nat → H

/-- The members that `vsids_bump_var_act` reads or writes, with `double` values in `D`. -/
structure VsidsState (H D : Type) where
  var_act_vsids : List D
  max_vsids_act : D
  var_inc_vsids : D
  order_heap_vsids : H

/-- The fields of `Clause` that `bump_cl_act` touches, with the `float` activity in `F`. -/
structure ClauseFP (F : Type) where
  removed : Bool
  activity : F

/-- The members that `bump_cl_act` reads or writes: the clause arena, the three learnt tiers
`longRedCls[0..2]` (lists of offsets into the arena), `cla_inc` and `max_cl_act`. -/
structure ClActState (D F : Type) where
  cl_alloc : List (ClauseFP F)
  longRedCls0 : List Nat
  longRedCls1 : List Nat
  longRedCls2 : List Nat
  cla_inc : D
  max_cl_act : D

/-- The value that `var_act_vsids[var] += var_inc_vsids * mult` stores: the `double` sum of
the old activity and the `double` product. -/
def vsids_new_act {D F : Type} (fl : FloatOps D F) (s : VsidsState H D) (var : Nat)
    (mult : D) : D :=
  fl.dadd (s.var_act_vsids.getD var fl.d0) (fl.dmul s.var_inc_vsids mult)

/-- First part of `vsids_bump_var_act`: `var_act_vsids[var] += var_inc_vsids * mult` and the
update of `max_vsids_act`, in `double` arithmetic. -/
def vsids_add_inc_fp {D F : Type} (fl : FloatOps D F) (s : VsidsState H D) (var : Nat)
    (mult : D) : VsidsState H D :=
  let acts := s.var_act_vsids.set var (vsids_new_act fl s var mult)
  { s with
    var_act_vsids := acts,
    max_vsids_act :=
      if fl.dlt s.max_vsids_act (acts.getD var fl.d0) then acts.getD var fl.d0
      else s.max_vsids_act }

/-- The rescale block of `vsids_bump_var_act`: every activity, `max_vsids_act` and
`var_inc_vsids` are multiplied by the `double` `1e-100`. -/
def vsids_rescale_fp {D F : Type} (fl : FloatOps D F) (s : VsidsState H D) :
    VsidsState H D :=
  { s with
    var_act_vsids := s.var_act_vsids.map (fun act => fl.dmul act fl.d1em100),
    max_vsids_act := fl.dmul s.max_vsids_act fl.d1em100,
    var_inc_vsids := fl.dmul s.var_inc_vsids fl.d1em100 }

/-- The test `var_act_vsids[var] > 1e100` that guards the rescale block. -/
def vsids_rescale_fires_fp {D F : Type} (fl : FloatOps D F) (s : VsidsState H D)
    (var : Nat) : Bool :=
  fl.dlt fl.d1e100 (s.var_act_vsids.getD var fl.d0)

/-- Last part of `vsids_bump_var_act`: `order_heap_vsids.decrease(var)` when `var` is in the
heap. -/
def vsids_heap_update_fp {D : Type} (ops : HeapOpsFP H D) (s : VsidsState H D)
    (var : Nat) : VsidsState H D :=
  if ops.inHeap s.order_heap_vsids var then
    { s with order_heap_vsids := ops.decrease s.var_act_vsids s.order_heap_vsids var }
  else s

/-- Embeds `Searcher::vsids_bump_var_act<update_bogoprops>(var, mult)` in `double`
arithmetic. -/
def vsids_bump_var_act_fp {D F : Type} (fl : FloatOps D F) (ops : HeapOpsFP H D)
    (update_bogoprops : Bool) (s : VsidsState H D) (var : Nat) (mult : D) : VsidsState H D :=
  if update_bogoprops then s
  else
    let s1 := vsids_add_inc_fp fl s var mult
    let s2 := if vsids_rescale_fires_fp fl s1 var then vsids_rescale_fp fl s1 else s1
    vsids_heap_update_fp ops s2 var

/-- The clause at offset `offs` of the arena (`cl_alloc.ptr(offs)`). -/
def clause_at {D F : Type} (fl : FloatOps D F) (alloc : List (ClauseFP F)) (offs : Nat) :
    ClauseFP F :=
  alloc.getD offs ⟨false, fl.f0⟩

/-- The statement `cl_alloc.ptr(offs)->stats.activity *= static_cast<float>(1e-20)`, a
`float` product. -/
def scale_cl_act_fp {D F : Type} (fl : FloatOps D F) (alloc : List (ClauseFP F))
    (offs : Nat) : List (ClauseFP F) :=
  alloc.set offs { clause_at fl alloc offs with
    activity := fl.fmul (clause_at fl alloc offs).activity fl.f1em20 }

/-- The local `new_val` of `bump_cl_act`: `cla_inc + (double)cl->stats.activity`, a `double`
sum. -/
def cl_new_val {D F : Type} (fl : FloatOps D F) (s : ClActState D F) (cl : Nat) : D :=
  fl.dadd s.cla_inc (fl.toDouble (clause_at fl s.cl_alloc cl).activity)

/-- Embeds `Searcher::bump_cl_act<update_bogoprops>(cl)` in the default build (neither
`STATS_NEEDED` nor `FINAL_PREDICTOR`), with the `double` sum `new_val`, its conversion to the
`float` activity, the `float` test against `1e20F`, the `float` products of the rescale loop
and the `double` products of `cla_inc` and `max_cl_act`; `cl` is the offset of the clause in
`cl_alloc`, and `none` is a failed assertion. -/
def bump_cl_act_fp {D F : Type} (fl : FloatOps D F) (update_bogoprops : Bool)
    (s : ClActState D F) (cl : Nat) : Option (ClActState D F) :=
  if update_bogoprops then some s
  else if (clause_at fl s.cl_alloc cl).removed then none
  else
    let new_val := cl_new_val fl s cl
    let alloc1 := s.cl_alloc.set cl
      { clause_at fl s.cl_alloc cl with activity := fl.toFloat new_val }
    let max1 := if fl.dlt s.max_cl_act new_val then new_val else s.max_cl_act
    if fl.flt fl.f1e20 (clause_at fl alloc1 cl).activity then
      if fl.dne (fl.dmul s.cla_inc fl.d1em20) fl.d0 then
        some { s with
          cl_alloc := s.longRedCls2.foldl (scale_cl_act_fp fl) alloc1,
          cla_inc := fl.dmul s.cla_inc fl.d1em20,
          max_cl_act := fl.dmul max1 fl.d1em20 }
      else none
    else some { s with cl_alloc := alloc1, max_cl_act := max1 }

/-! ## The arithmetic of IEEE 754

A model of binary64 and binary32 arithmetic with rounding to nearest, ties to even, gradual
underflow, overflow to the infinities, and NaN. Values are exact rationals tagged as finite,
so results can be evaluated and compared exactly; every operation rounds its exact result to
the format. -/

/-- Values of a binary floating-point type: a finite number, the two infinities, NaN. The
finite numbers of a format are the rationals that `fround` leaves fixed; the operations
round every result to the format, and the states used for evaluation hold numbers of the
format only. -/
inductive Fp where
  | fin (q : ℚ)
  | pinf
  | ninf
  | nan
deriving DecidableEq

/-- Parameters of a binary floating-point format: the number of stored fraction bits and the
exponents of the smallest and the largest normal binade. -/
structure FpFormat where
  mant : Nat
  emin : Int
  emax : Int

/-- The format of `double`. -/
def binary64 : FpFormat := ⟨52, -1022, 1023⟩

/-- The format of `float`. -/
def binary32 : FpFormat := ⟨23, -126, 127⟩

/-- Rounding of a rational to the nearest integer, ties to the even one. -/
def rne (t : ℚ) : ℤ :=
  if t - ⌊t⌋ < 1 / 2 then ⌊t⌋
  else if 1 / 2 < t - ⌊t⌋ then ⌊t⌋ + 1
  else if ⌊t⌋ % 2 = 0 then ⌊t⌋ else ⌊t⌋ + 1

/-- Exponent of the unit in the last place of `x`: the binade of `x`, or the smallest normal
binade for a subnormal `x`, minus the number of fraction bits. -/
def ulpExp (f : FpFormat) (x : ℚ) : ℤ := max (Int.log 2 |x|) f.emin - f.mant

/-- Rounding to the nearest multiple of the unit in the last place, ties to even, with
unbounded exponent. -/
def roundNE (f : FpFormat) (x : ℚ) : ℚ := rne (x / 2 ^ ulpExp f x) * 2 ^ ulpExp f x

/-- Rounding of a rational result to the format: round to nearest, ties to even; a rounded
magnitude of `2^(emax+1)` or more overflows to the infinity of its sign. -/
def fround (f : FpFormat) (x : ℚ) : Fp :=
  if 2 ^ (f.emax + 1) ≤ roundNE f x then Fp.pinf
  else if roundNE f x ≤ -(2 ^ (f.emax + 1)) then Fp.ninf
  else Fp.fin (roundNE f x)

/-- Sum of two values in a format: the rounded exact sum of finite operands; the IEEE rules
for infinities and NaN. -/
def Fp.add (f : FpFormat) (a b : Fp) : Fp :=
  match a, b with
  | Fp.fin x, Fp.fin y => fround f (x + y)
  | Fp.fin _, Fp.pinf => Fp.pinf
  | Fp.fin _, Fp.ninf => Fp.ninf
  | Fp.fin _, Fp.nan => Fp.nan
  | Fp.pinf, Fp.fin _ => Fp.pinf
  | Fp.pinf, Fp.pinf => Fp.pinf
  | Fp.pinf, Fp.ninf => Fp.nan
  | Fp.pinf, Fp.nan => Fp.nan
  | Fp.ninf, Fp.fin _ => Fp.ninf
  | Fp.ninf, Fp.pinf => Fp.nan
  | Fp.ninf, Fp.ninf => Fp.ninf
  | Fp.ninf, Fp.nan => Fp.nan
  | Fp.nan, _ => Fp.nan

/-- Product of an infinity of the given sign with a finite number. -/
def Fp.infMul (positive : Bool) (y : ℚ) : Fp :=
  if y = 0 then Fp.nan
  else if decide (0 < y) = positive then Fp.pinf else Fp.ninf

/-- Product of two values in a format: the rounded exact product of finite operands; the
IEEE rules for infinities and NaN. -/
def Fp.mul (f : FpFormat) (a b : Fp) : Fp :=
  match a, b with
  | Fp.fin x, Fp.fin y => fround f (x * y)
  | Fp.fin x, Fp.pinf => Fp.infMul true x
  | Fp.fin x, Fp.ninf => Fp.infMul false x
  | Fp.fin _, Fp.nan => Fp.nan
  | Fp.pinf, Fp.fin y => Fp.infMul true y
  | Fp.pinf, Fp.pinf => Fp.pinf
  | Fp.pinf, Fp.ninf => Fp.ninf
  | Fp.pinf, Fp.nan => Fp.nan
  | Fp.ninf, Fp.fin y => Fp.infMul false y
  | Fp.ninf, Fp.pinf => Fp.ninf
  | Fp.ninf, Fp.ninf => Fp.pinf
  | Fp.ninf, Fp.nan => Fp.nan
  | Fp.nan, _ => Fp.nan

/-- The comparison `<`; false if an operand is NaN. -/
def Fp.lt (a b : Fp) : Bool :=
  match a, b with
  | Fp.fin x, Fp.fin y => decide (x < y)
  | Fp.fin _, Fp.pinf => true
  | Fp.fin _, Fp.ninf => false
  | Fp.fin _, Fp.nan => false
  | Fp.pinf, _ => false
  | Fp.ninf, Fp.fin _ => true
  | Fp.ninf, Fp.pinf => true
  | Fp.ninf, Fp.ninf => false
  | Fp.ninf, Fp.nan => false
  | Fp.nan, _ => false

/-- The comparison `<=`; false if an operand is NaN. -/
def Fp.le (a b : Fp) : Bool :=
  match a, b with
  | Fp.fin x, Fp.fin y => decide (x ≤ y)
  | Fp.fin _, Fp.pinf => true
  | Fp.fin _, Fp.ninf => false
  | Fp.fin _, Fp.nan => false
  | Fp.pinf, Fp.fin _ => false
  | Fp.pinf, Fp.pinf => true
  | Fp.pinf, Fp.ninf => false
  | Fp.pinf, Fp.nan => false
  | Fp.ninf, Fp.fin _ => true
  | Fp.ninf, Fp.pinf => true
  | Fp.ninf, Fp.ninf => true
  | Fp.ninf, Fp.nan => false
  | Fp.nan, _ => false

/-- The comparison `!=`; true if an operand is NaN. -/
def Fp.ne (a b : Fp) : Bool :=
  match a, b with
  | Fp.fin x, Fp.fin y => decide (x ≠ y)
  | Fp.pinf, Fp.pinf => false
  | Fp.ninf, Fp.ninf => false
  | Fp.fin _, Fp.pinf => true
  | Fp.fin _, Fp.ninf => true
  | Fp.fin _, Fp.nan => true
  | Fp.pinf, Fp.fin _ => true
  | Fp.pinf, Fp.ninf => true
  | Fp.pinf, Fp.nan => true
  | Fp.ninf, Fp.fin _ => true
  | Fp.ninf, Fp.pinf => true
  | Fp.ninf, Fp.nan => true
  | Fp.nan, _ => true

/-- Conversion of a value to a format: a finite number is rounded, infinities and NaN are
kept. -/
def Fp.conv (f : FpFormat) (a : Fp) : Fp :=
  match a with
  | Fp.fin x => fround f x
  | Fp.pinf => Fp.pinf
  | Fp.ninf => Fp.ninf
  | Fp.nan => Fp.nan

/-- The arithmetic of `double` (binary64) and `float` (binary32) under IEEE 754 with rounding
to nearest, ties to even. A literal is the rounding of its decimal value; the conversion of a
`float` to `double` is exact. The sign of a zero is not modelled: the functions embedded
here compare zeros only, and the two zeros compare equal. -/
def ieee : FloatOps Fp Fp where
  dadd := Fp.add binary64
  dmul := Fp.mul binary64
  dlt := Fp.lt
  dle := Fp.le
  dne := Fp.ne
  d0 := Fp.fin 0
  d1e100 := fround binary64 (10 ^ 100)
  d1em100 := fround binary64 (1 / 10 ^ 100)
  d1e20 := fround binary64 (10 ^ 20)
  d1em20 := fround binary64 (1 / 10 ^ 20)
  fmul := Fp.mul binary32
  flt := Fp.lt
  fle := Fp.le
  f0 := Fp.fin 0
  f1e20 := fround binary32 (10 ^ 20)
  f1em20 := Fp.conv binary32 (fround binary64 (1 / 10 ^ 20))
  toFloat := Fp.conv binary32
  toDouble a := a

/-- A heap instance over `Fp` activities for concrete evaluation: the heap is the list of its
elements and `decrease` leaves the list as it is. -/
def sampleHeapFP : HeapOpsFP (List Nat) Fp where
  inHeap h x := h.contains x
  decrease _ h _ := h

/-- A concrete state of the vsids members: activities `2^332`, `2` and `0` (all at most
`1e100`), maximum `2^332` and increment `2^332`; bumping variable 0 with multiplier 1 gives
`2^333`, above `1e100`. -/
def sampleVsids : VsidsState (List Nat) Fp where
  var_act_vsids := [Fp.fin (2 ^ 332), Fp.fin 2, Fp.fin 0]
  max_vsids_act := Fp.fin (2 ^ 332)
  var_inc_vsids := Fp.fin (2 ^ 332)
  order_heap_vsids := [0, 1]

/-- A concrete state of the vsids members with small activities, for a bump by NaN. -/
def sampleVsidsSmall : VsidsState (List Nat) Fp where
  var_act_vsids := [Fp.fin 1, Fp.fin 2]
  max_vsids_act := Fp.fin 2
  var_inc_vsids := Fp.fin 1
  order_heap_vsids := [0]

/-- A concrete state of the clause members: the clause at offset 0 is in `longRedCls[0]`,
the clauses at offsets 1 and 2 are in `longRedCls[2]`; the activities `2^66`, `2^66` and
`2^10` are below `1e20`, and `cla_inc` is `2^66`. -/
def sampleClAct : ClActState Fp Fp where
  cl_alloc := [⟨false, Fp.fin (2 ^ 66)⟩, ⟨false, Fp.fin (2 ^ 66)⟩, ⟨false, Fp.fin (2 ^ 10)⟩]
  longRedCls0 := [0]
  longRedCls1 := []
  longRedCls2 := [1, 2]
  cla_inc := Fp.fin (2 ^ 66)
  max_cl_act := Fp.fin (2 ^ 66)

/-- A concrete state of the clause members in which the clause at offset 0, stored in
`longRedCls[2]`, has the activity `1`, `cla_inc` is the `double` `2^-24 + 2^-40` and
`max_cl_act` is `1`. -/
def sampleClActRound : ClActState Fp Fp where
  cl_alloc := [⟨false, Fp.fin 1⟩]
  longRedCls0 := []
  longRedCls1 := []
  longRedCls2 := [0]
  cla_inc := Fp.fin (1 / 2 ^ 24 + 1 / 2 ^ 40)
  max_cl_act := Fp.fin 1

/-! ## Lemmas on the parts of `vsids_bump_var_act` -/

theorem getD_map_scale (l : List ℚ) (n : Nat) (c : ℚ) :
    (l.map (fun act => act * c)).getD n 0 = l.getD n 0 * c := by
  simp only [List.getD_eq_getElem?_getD, List.getElem?_map]
  cases l[n]? <;> simp

theorem vsids_heap_update_acts (ops : HeapOps H) (s : Searcher H R) (var : Nat) :
    (vsids_heap_update ops s var).var_act_vsids = s.var_act_vsids := by
  unfold vsids_heap_update
  split <;> rfl

theorem vsids_bump_fires (ops : HeapOps H) (s : Searcher H R) (var : Nat) (mult : ℚ)
    (h : vsids_rescale_fires (vsids_add_inc s var mult) var = true) :
    vsids_bump_var_act ops false s var mult
      = vsids_heap_update ops (vsids_rescale (vsids_add_inc s var mult)) var := by
  simp [vsids_bump_var_act, h]

/-! ## Theorems -/

/-- C1: in `vsids_bump_var_act<false>`, whenever the rescale fires, two variables `u`, `v`
whose activities right before the rescale block (after the increment was added) satisfy
`a > b` have activities `a' ≥ b'` when the function returns. -/
theorem vsids_rescale_preserves_order (ops : HeapOps H) (s : Searcher H R) (var : Nat)
    (mult : ℚ) (u v : Nat)
    (hfire : vsids_rescale_fires (vsids_add_inc s var mult) var = true)
    (hab : (vsids_add_inc s var mult).var_act_vsids.getD u 0
             > (vsids_add_inc s var mult).var_act_vsids.getD v 0) :
    (vsids_bump_var_act ops false s var mult).var_act_vsids.getD u 0
      ≥ (vsids_bump_var_act ops false s var mult).var_act_vsids.getD v 0 := by
  rw [vsids_bump_fires ops s var mult hfire, vsids_heap_update_acts]
  simp only [vsids_rescale, getD_map_scale]
  have hc : (0 : ℚ) ≤ 1 / 10 ^ 100 := by positivity
  exact mul_le_mul_of_nonneg_right (le_of_lt hab) hc

/-- Evaluation of C1 on `sampleState`: bumping variable 0 fires the rescale, and variables
0 and 1 keep their order. -/
theorem vsids_rescale_preserves_order_witness :
    vsids_rescale_fires (vsids_add_inc sampleState 0 1) 0 = true
    ∧ (vsids_add_inc sampleState 0 1).var_act_vsids.getD 0 0
        > (vsids_add_inc sampleState 0 1).var_act_vsids.getD 1 0
    ∧ (vsids_bump_var_act sampleHeap false sampleState 0 1).var_act_vsids.getD 0 0
        ≥ (vsids_bump_var_act sampleHeap false sampleState 0 1).var_act_vsids.getD 1 0 :=
  ⟨by norm_num [vsids_rescale_fires, vsids_add_inc, sampleState],
   by norm_num [vsids_add_inc, sampleState],
   vsids_rescale_preserves_order sampleHeap sampleState 0 1 0 1
     (by norm_num [vsids_rescale_fires, vsids_add_inc, sampleState])
     (by norm_num [vsids_add_inc, sampleState])⟩

/-- C4: `pick_polarity(var)` returns `false` in mode `polarmode_neg`, `true` in mode
`polarmode_pos`, the cached polarity `varData[var].polarity` in mode `polarmode_automatic`
(the state is unchanged in these three modes), and in mode `polarmode_rnd` the bit drawn by
`mtrand.randInt(1)`, the generator being advanced by that draw. -/
theorem pick_polarity_spec (rnd : RandOps R) (s : Searcher H R) (var : Nat) :
    (s.conf.polarity_mode = PolarityMode.polarmode_neg →
      pick_polarity rnd s var = some (false, s))
    ∧ (s.conf.polarity_mode = PolarityMode.polarmode_pos →
      pick_polarity rnd s var = some (true, s))
    ∧ (s.conf.polarity_mode = PolarityMode.polarmode_automatic →
      ∀ h : var < s.varData.length,
        pick_polarity rnd s var = some ((s.varData.get ⟨var, h⟩).polarity, s))
    ∧ (s.conf.polarity_mode = PolarityMode.polarmode_rnd →
      pick_polarity rnd s var
        = some ((rnd.randInt s.mtrand 1).1 != 0,
            { s with mtrand := (rnd.randInt s.mtrand 1).2 })) := by
  refine ⟨?_, ?_, ?_, ?_⟩
  · intro h
    simp [pick_polarity, h]
  · intro h
    simp [pick_polarity, h]
  · intro h hvar
    simp [pick_polarity, h, List.getElem?_eq_getElem hvar]
  · intro h
    simp [pick_polarity, h]

/-- Evaluation of C4 on `sampleState` (automatic mode): variable 1 has cached polarity
`false`. -/
theorem pick_polarity_spec_witness :
    sampleState.conf.polarity_mode = PolarityMode.polarmode_automatic
    ∧ pick_polarity sampleRand sampleState 1 = some (false, sampleState) :=
  ⟨rfl, (pick_polarity_spec sampleRand sampleState 1).2.2.1 rfl (by decide)⟩

/-- C5: with `update_bogoprops = true` the bookkeeping operations return at once:
`vsids_bump_var_act<true>`, `bump_cl_act<true>` and `decayClauseAct<true>` leave the whole
state unchanged (and `bump_cl_act<true>` does not reach its assertions). -/
theorem bogoprops_mode_no_bookkeeping (ops : HeapOps H) (s : Searcher H R) (var : Nat)
    (mult : ℚ) (cl : Nat) :
    vsids_bump_var_act ops true s var mult = s
    ∧ bump_cl_act true s cl = some s
    ∧ decayClauseAct true s = s := by
  refine ⟨?_, ?_, ?_⟩
  · simp [vsids_bump_var_act]
  · simp [bump_cl_act]
  · simp [decayClauseAct]

theorem Lit.ofVar_var (v : Nat) (b : Bool) : (Lit.ofVar v b).var = v := by
  cases b <;> simp [Lit.ofVar, Lit.var, Nat.shiftRight_eq_div_pow] <;> omega

theorem Lit.ofVar_sign (v : Nat) (b : Bool) : (Lit.ofVar v b).sign = b := by
  cases b <;> simp [Lit.ofVar, Lit.sign, Nat.and_one_is_mod] <;> omega

/-- C6: `var_inside_assumptions(v)` is the cached field `varData[v].assumption`.
`lit_inside_assumptions(l)` is undefined exactly when `var_inside_assumptions(l.var())` is;
otherwise it is that value for a positive `l` and the swapped value for a negated `l`, so it
is true exactly when the assumed value of the variable is true and `l` is positive, or
false and `l` is negated. The same holds for the literal `Lit(v, sgn)` built over `v`. -/
theorem inside_assumptions_spec (s : Searcher H R) (v : Nat) (l : Lit) (sgn : Bool) :
    (∀ h : v < s.varData.length,
      var_inside_assumptions s v = (s.varData.get ⟨v, h⟩).assumption)
    ∧ (lit_inside_assumptions s l = lbool.l_Undef
        ↔ var_inside_assumptions s l.var = lbool.l_Undef)
    ∧ (l.sign = false → lit_inside_assumptions s l = var_inside_assumptions s l.var)
    ∧ (l.sign = true → var_inside_assumptions s l.var = lbool.l_True →
        lit_inside_assumptions s l = lbool.l_False)
    ∧ (l.sign = true → var_inside_assumptions s l.var = lbool.l_False →
        lit_inside_assumptions s l = lbool.l_True)
    ∧ (lit_inside_assumptions s l = lbool.l_True
        ↔ (var_inside_assumptions s l.var = lbool.l_True ∧ l.sign = false)
          ∨ (var_inside_assumptions s l.var = lbool.l_False ∧ l.sign = true))
    ∧ (lit_inside_assumptions s (Lit.ofVar v sgn) = lbool.l_True
        ↔ (var_inside_assumptions s v = lbool.l_True ∧ sgn = false)
          ∨ (var_inside_assumptions s v = lbool.l_False ∧ sgn = true)) := by
  have key : ∀ l : Lit, (lit_inside_assumptions s l = lbool.l_True
        ↔ (var_inside_assumptions s l.var = lbool.l_True ∧ l.sign = false)
          ∨ (var_inside_assumptions s l.var = lbool.l_False ∧ l.sign = true)) := by
    intro l
    unfold lit_inside_assumptions var_inside_assumptions
    cases (s.varData.getD l.var default).assumption <;> cases l.sign <;> simp [lbool.xor]
  refine ⟨?_, ?_, ?_, ?_, ?_, key l, ?_⟩
  · intro h
    simp [var_inside_assumptions, List.getElem?_eq_getElem h]
  · unfold lit_inside_assumptions var_inside_assumptions
    cases (s.varData.getD l.var default).assumption <;> cases l.sign <;> simp [lbool.xor]
  · intro hs
    unfold lit_inside_assumptions var_inside_assumptions
    rw [hs]
    cases (s.varData.getD l.var default).assumption <;> simp [lbool.xor]
  · intro hs hv
    unfold lit_inside_assumptions
    unfold var_inside_assumptions at hv
    rw [hs, hv]
    simp [lbool.xor]
  · intro hs hv
    unfold lit_inside_assumptions
    unfold var_inside_assumptions at hv
    rw [hs, hv]
    simp [lbool.xor]
  · have h := key (Lit.ofVar v sgn)
    rw [Lit.ofVar_var, Lit.ofVar_sign] at h
    exact h

/-- Evaluation of C6 on `sampleState`: variable 2 is assumed false, so the negated literal
over it is inside the assumptions as true. -/
theorem inside_assumptions_spec_witness :
    (Lit.ofVar 2 true).sign = true
    ∧ var_inside_assumptions sampleState (Lit.ofVar 2 true).var = lbool.l_False
    ∧ lit_inside_assumptions sampleState (Lit.ofVar 2 true) = lbool.l_True :=
  ⟨by decide, by decide,
   (inside_assumptions_spec sampleState 2 (Lit.ofVar 2 true) true).2.2.2.2.1
     (by decide) (by decide)⟩

/-! ## Lemmas on the literal encoding -/

theorem Lit.neg_var (l : Lit) : l.neg.var = l.var := by
  have h := @Nat.xor_div_two l.x 1
  simp only [Lit.neg, Lit.var, Nat.shiftRight_eq_div_pow, pow_one]
  simpa using h

theorem Lit.var_eq_div (l : Lit) : l.var = l.x / 2 := by
  simp [Lit.var, Nat.shiftRight_eq_div_pow]

theorem Lit.sign_eq_mod (l : Lit) : (l.sign = true ↔ l.x % 2 = 1) := by
  simp [Lit.sign, Nat.and_one_is_mod]

theorem Lit.neg_x_mod (l : Lit) : l.neg.x % 2 = 1 - l.x % 2 := by
  have h := @Nat.xor_mod_two_eq l.x 1
  simp only [Lit.neg]
  omega

theorem Lit.neg_x_div (l : Lit) : l.neg.x / 2 = l.x / 2 := by
  have h := Lit.neg_var l
  rw [Lit.var_eq_div, Lit.var_eq_div] at h
  exact h

theorem AssumptionPair.lt_iff (a b : AssumptionPair) :
    a.lt b = true ↔
      a.lit_outer.var < b.lit_outer.var
      ∨ (a.lit_outer.var = b.lit_outer.var
          ∧ a.lit_outer.sign = true ∧ b.lit_outer.sign = false) := by
  have ha1 := Lit.neg_x_mod a.lit_outer
  have ha2 := Lit.neg_x_div a.lit_outer
  have hb1 := Lit.neg_x_mod b.lit_outer
  have hb2 := Lit.neg_x_div b.lit_outer
  have hsa := Lit.sign_eq_mod a.lit_outer
  have hsb := Lit.sign_eq_mod b.lit_outer
  have hsb2 : b.lit_outer.sign = false ↔ b.lit_outer.x % 2 = 0 := by
    rw [← Bool.not_eq_true, hsb]
    omega
  simp only [AssumptionPair.lt, Lit.lt, decide_eq_true_eq, Lit.var_eq_div]
  rw [hsa, hsb2]
  omega

/-- C7: `AssumptionPair::operator<` compares the negations of the internal literals only:
`a < b` holds iff `~a.lit_outer < ~b.lit_outer`, whatever the `lit_orig_outside` members
are. Pairs with different internal variables order by variable index; for the same internal
variable the pair with the negated literal (sign bit set) is before the pair with the
positive literal; so in a sequence sorted by `operator<` the pairs of one internal variable
are adjacent: any element between two pairs of a variable is a pair of that variable. -/
theorem AssumptionPair_lt_spec (a b : AssumptionPair) (o1 o2 : Lit)
    (l : List AssumptionPair) (i j k : Nat) :
    (a.lt b = true ↔ Lit.lt a.lit_outer.neg b.lit_outer.neg = true)
    ∧ (AssumptionPair.lt ⟨a.lit_outer, o1⟩ ⟨b.lit_outer, o2⟩ = a.lt b)
    ∧ (a.lit_outer.var ≠ b.lit_outer.var →
        (a.lt b = true ↔ a.lit_outer.var < b.lit_outer.var))
    ∧ (a.lit_outer.var = b.lit_outer.var →
        (a.lt b = true ↔ a.lit_outer.sign = true ∧ b.lit_outer.sign = false))
    ∧ (l.Pairwise (fun p q => q.lt p = false) → i < j → j < k →
        ∀ (hi : i < l.length) (hj : j < l.length) (hk : k < l.length),
          (l.get ⟨i, hi⟩).lit_outer.var = (l.get ⟨k, hk⟩).lit_outer.var →
          (l.get ⟨j, hj⟩).lit_outer.var = (l.get ⟨i, hi⟩).lit_outer.var) := by
  refine ⟨Iff.rfl, rfl, ?_, ?_, ?_⟩
  · intro hne
    rw [AssumptionPair.lt_iff]
    constructor
    · rintro (h | ⟨h, _⟩)
      · exact h
      · exact absurd h hne
    · intro h
      exact Or.inl h
  · intro heq
    rw [AssumptionPair.lt_iff]
    constructor
    · rintro (h | ⟨_, h⟩)
      · rw [heq] at h
        exact absurd h (lt_irrefl _)
      · exact h
    · intro h
      exact Or.inr ⟨heq, h⟩
  · intro hs hij hjk hi hj hk hik
    rw [List.pairwise_iff_getElem] at hs
    have h1 := hs i j hi hj hij
    have h2 := hs j k hj hk hjk
    simp only [List.get_eq_getElem] at hik ⊢
    have n1 : ¬ (l[j].lt l[i] = true) := by
      rw [h1]
      exact Bool.noConfusion
    have n2 : ¬ (l[k].lt l[j] = true) := by
      rw [h2]
      exact Bool.noConfusion
    rw [AssumptionPair.lt_iff] at n1 n2
    have m1 : ¬ l[j].lit_outer.var < l[i].lit_outer.var := fun h => n1 (Or.inl h)
    have m2 : ¬ l[k].lit_outer.var < l[j].lit_outer.var := fun h => n2 (Or.inl h)
    omega

/-- Evaluation of C7: the pair holding the negated literal of variable 1 is before the pair
holding the positive literal of variable 1. -/
theorem AssumptionPair_lt_spec_witness :
    (Lit.ofVar 1 true).var = (Lit.ofVar 1 false).var
    ∧ AssumptionPair.lt ⟨Lit.ofVar 1 true, Lit.ofVar 5 false⟩
        ⟨Lit.ofVar 1 false, Lit.ofVar 4 true⟩ = true :=
  ⟨by decide,
   ((AssumptionPair_lt_spec ⟨Lit.ofVar 1 true, Lit.ofVar 5 false⟩
      ⟨Lit.ofVar 1 false, Lit.ofVar 4 true⟩ (Lit.ofVar 0 false) (Lit.ofVar 0 false)
      [] 0 0 0).2.2.2.1 (by decide)).2 ⟨by decide, by decide⟩⟩

theorem shift_mask_eq_pow (n : Nat) : (1 <<< (n &&& 31)) % 2 ^ 32 = 2 ^ (n % 32) := by
  have h := Nat.and_pow_two_sub_one_eq_mod n 5
  norm_num at h
  rw [h, Nat.one_shiftLeft]
  apply Nat.mod_eq_of_lt
  apply Nat.pow_lt_pow_right (by norm_num)
  omega

/-- C8: for variables `x`, `y` in range, `abstractLevel(x)` equals `2^(level(x) mod 32)` and
fits in 32 bits; exactly one bit is set, at index `level(x) mod 32`; and two variables whose
decision levels are congruent modulo 32 get the same abstraction. -/
theorem abstractLevel_spec (s : Searcher H R) (x y : Nat)
    (hx : x < s.varData.length) (hy : y < s.varData.length) :
    abstractLevel s x = 2 ^ ((s.varData.get ⟨x, hx⟩).level % 32)
    ∧ abstractLevel s x < 2 ^ 32
    ∧ (∀ i, (abstractLevel s x).testBit i = true ↔ i = (s.varData.get ⟨x, hx⟩).level % 32)
    ∧ ((s.varData.get ⟨x, hx⟩).level % 32 = (s.varData.get ⟨y, hy⟩).level % 32 →
        abstractLevel s x = abstractLevel s y) := by
  have ex : abstractLevel s x = 2 ^ ((s.varData.get ⟨x, hx⟩).level % 32) := by
    simp only [abstractLevel, List.getD_eq_getElem _ _ hx, List.get_eq_getElem]
    exact shift_mask_eq_pow _
  have ey : abstractLevel s y = 2 ^ ((s.varData.get ⟨y, hy⟩).level % 32) := by
    simp only [abstractLevel, List.getD_eq_getElem _ _ hy, List.get_eq_getElem]
    exact shift_mask_eq_pow _
  refine ⟨ex, ?_, ?_, ?_⟩
  · rw [ex]
    apply Nat.pow_lt_pow_right (by norm_num)
    omega
  · intro i
    rw [ex, Nat.testBit_two_pow, decide_eq_true_eq]
    exact eq_comm
  · intro h
    rw [ex, ey, h]

/-- Evaluation of C8 on `sampleState`: variables 1 and 2 have levels 33 and 1, congruent
modulo 32, and both get the abstraction `2`. -/
theorem abstractLevel_spec_witness :
    (1 < sampleState.varData.length) ∧ (2 < sampleState.varData.length)
    ∧ abstractLevel sampleState 1 = 2 ^ (33 % 32)
    ∧ abstractLevel sampleState 1 = abstractLevel sampleState 2 :=
  ⟨by decide, by decide,
   (abstractLevel_spec sampleState 1 2 (by decide) (by decide)).1,
   (abstractLevel_spec sampleState 1 2 (by decide) (by decide)).2.2.2 (by decide)⟩

/-- C9: `insert_var_order(x)` is `insert_var_order(x, branch_strategy)`, and
`insert_var_order(x, t)` changes only the order structure of `t`: the vsids heap, the maple
heap, the VMTF queue and the random worklist with its bitmap are each unchanged unless `t`
is their strategy, and no other member changes. -/
theorem insert_var_order_frame (ops : HeapOps H) (s : Searcher H R) (x : Nat) (t : branch) :
    insert_var_order ops s x = insert_var_order_type ops s x s.branch_strategy
    ∧ (t ≠ branch.vsids →
        (insert_var_order_type ops s x t).order_heap_vsids = s.order_heap_vsids)
    ∧ (t ≠ branch.maple →
        (insert_var_order_type ops s x t).order_heap_maple = s.order_heap_maple)
    ∧ (t ≠ branch.vmtf →
        (insert_var_order_type ops s x t).vmtf_queue = s.vmtf_queue)
    ∧ (t ≠ branch.rnd →
        (insert_var_order_type ops s x t).order_heap_rnd = s.order_heap_rnd
        ∧ (insert_var_order_type ops s x t).order_heap_rnd_inside = s.order_heap_rnd_inside)
    ∧ ((insert_var_order_type ops s x t).varData = s.varData
        ∧ (insert_var_order_type ops s x t).branch_strategy = s.branch_strategy
        ∧ (insert_var_order_type ops s x t).var_act_vsids = s.var_act_vsids
        ∧ (insert_var_order_type ops s x t).var_act_maple = s.var_act_maple
        ∧ (insert_var_order_type ops s x t).max_vsids_act = s.max_vsids_act
        ∧ (insert_var_order_type ops s x t).var_inc_vsids = s.var_inc_vsids
        ∧ (insert_var_order_type ops s x t).vmtf_btab = s.vmtf_btab
        ∧ (insert_var_order_type ops s x t).cl_alloc = s.cl_alloc
        ∧ (insert_var_order_type ops s x t).longRedCls0 = s.longRedCls0
        ∧ (insert_var_order_type ops s x t).longRedCls1 = s.longRedCls1
        ∧ (insert_var_order_type ops s x t).longRedCls2 = s.longRedCls2
        ∧ (insert_var_order_type ops s x t).cla_inc = s.cla_inc
        ∧ (insert_var_order_type ops s x t).max_cl_act = s.max_cl_act
        ∧ (insert_var_order_type ops s x t).params = s.params
        ∧ (insert_var_order_type ops s x t).mtrand = s.mtrand
        ∧ (insert_var_order_type ops s x t).conf.polarity_mode = s.conf.polarity_mode
        ∧ (insert_var_order_type ops s x t).conf.clause_decay = s.conf.clause_decay) := by
  refine ⟨rfl, ?_, ?_, ?_, ?_, ?_⟩
  · intro ht
    cases t <;> simp only [insert_var_order_type, vmtf_update_queue_unassigned]
      <;> first | exact absurd rfl ht | (split <;> rfl)
  · intro ht
    cases t <;> simp only [insert_var_order_type, vmtf_update_queue_unassigned]
      <;> first | exact absurd rfl ht | (split <;> rfl)
  · intro ht
    cases t <;> simp only [insert_var_order_type, vmtf_update_queue_unassigned]
      <;> first | exact absurd rfl ht | (split <;> rfl)
  · intro ht
    cases t <;> simp only [insert_var_order_type, vmtf_update_queue_unassigned]
      <;> first | exact absurd rfl ht | (split <;> exact ⟨rfl, rfl⟩)
  · cases t <;> simp only [insert_var_order_type, vmtf_update_queue_unassigned]
      <;> split <;> simp

/-- Evaluation of C9 on `sampleState`: inserting variable 2 into the random worklist leaves
the vsids heap as it was. -/
theorem insert_var_order_frame_witness :
    branch.rnd ≠ branch.vsids
    ∧ (insert_var_order_type sampleHeap sampleState 2 branch.rnd).order_heap_vsids
        = sampleState.order_heap_vsids :=
  ⟨by decide, (insert_var_order_frame sampleHeap sampleState 2 branch.rnd).2.1 (by decide)⟩

/-- C10: after `p.clear()` the counter `conflictsDoneThisRestart` is 0 and the flag
`needToStopSearch` is false, whatever they were, and `max_confl_to_do` is unchanged; a
freshly constructed `SearchParams` has the same cleared counters and `rest_type` equal to
`Restart::never`; `clear()` is idempotent. -/
theorem SearchParams_clear_spec (p : SearchParams) (stop0 : Bool) (confl0 max0 : Nat) :
    p.clear.conflictsDoneThisRestart = 0
    ∧ p.clear.needToStopSearch = false
    ∧ p.clear.max_confl_to_do = p.max_confl_to_do
    ∧ (SearchParams.construct stop0 confl0 max0).conflictsDoneThisRestart = 0
    ∧ (SearchParams.construct stop0 confl0 max0).needToStopSearch = false
    ∧ (SearchParams.construct stop0 confl0 max0).rest_type = Restart.never
    ∧ p.clear.clear = p.clear :=
  ⟨rfl, rfl, rfl, rfl, rfl, rfl, rfl⟩

/-- C11 (as stated, refuted): `clear()` does not bring `rest_type` back to
`Restart::never`; cleared from a state whose tag is `Restart::luby`, the tag is still
`Restart::luby`. -/
theorem SearchParams_clear_keeps_luby :
    (SearchParams.clear ⟨true, 17, 100, Restart.luby⟩).rest_type = Restart.luby
    ∧ (SearchParams.clear ⟨true, 17, 100, Restart.luby⟩).rest_type ≠ Restart.never :=
  ⟨rfl, by decide⟩

/-- C11 (amended): `clear()` resets the conflict counter and the stop flag only; the
restart-type tag `rest_type` is left as it was, so after `p.clear()` it equals
`Restart::never` exactly when it did before. -/
theorem SearchParams_clear_rest_type (p : SearchParams) :
    p.clear.rest_type = p.rest_type
    ∧ (p.clear.rest_type = Restart.never ↔ p.rest_type = Restart.never) :=
  ⟨rfl, Iff.rfl⟩

/-- C12: with doubling base 2 the Luby schedule has the restart intervals
1,1,2,1,1,2,4,1 at the indices 1..8 (and 1,2,1,1,2,4,8 at the indices 9..15). -/
theorem luby_first_values :
    luby 2 1 = 1 ∧ luby 2 2 = 1 ∧ luby 2 3 = 2 ∧ luby 2 4 = 1
    ∧ luby 2 5 = 1 ∧ luby 2 6 = 2 ∧ luby 2 7 = 4 ∧ luby 2 8 = 1
    ∧ luby 2 9 = 1 ∧ luby 2 10 = 2 ∧ luby 2 11 = 1 ∧ luby 2 12 = 1
    ∧ luby 2 13 = 2 ∧ luby 2 14 = 4 ∧ luby 2 15 = 8 := by
  refine ⟨?_, ?_, ?_, ?_, ?_, ?_, ?_, ?_, ?_, ?_, ?_, ?_, ?_, ?_, ?_⟩ <;>
    norm_num [luby, luby_seq, luby_seq_aux, Nat.log2]

theorem getD_set_eq {α : Type} (l : List α) (n : Nat) (a d : α) (h : n < l.length) :
    (l.set n a).getD n d = a := by
  simp [List.getD_eq_getElem?_getD, List.getElem?_set, h]

theorem getD_set_ne {α : Type} (l : List α) (n m : Nat) (a d : α) (h : n ≠ m) :
    (l.set n a).getD m d = l.getD m d := by
  simp [List.getD_eq_getElem?_getD, List.getElem?_set, h]

/-- C14: for a variable `x` in range of the bitmap whose entry is a bit (0 or 1): if before
the call `order_heap_rnd_inside[v] = 1` holds exactly for the `v` that occur in
`order_heap_rnd`, and `order_heap_rnd` has no duplicates, then after
`insert_var_order(x, branch::rnd)` both still hold, `x` occurs in the worklist exactly once
and its bit is 1, and every other variable has the same membership and the same entry as
before. -/
theorem insert_var_order_rnd_consistent (ops : HeapOps H) (s : Searcher H R) (x : Nat)
    (hx : x < s.order_heap_rnd_inside.length)
    (hbit : s.order_heap_rnd_inside.getD x 0 = 0 ∨ s.order_heap_rnd_inside.getD x 0 = 1)
    (hinv : ∀ v, s.order_heap_rnd_inside.getD v 0 = 1 ↔ v ∈ s.order_heap_rnd)
    (hnd : s.order_heap_rnd.Nodup) :
    (∀ v, (insert_var_order_type ops s x branch.rnd).order_heap_rnd_inside.getD v 0 = 1
        ↔ v ∈ (insert_var_order_type ops s x branch.rnd).order_heap_rnd)
    ∧ (insert_var_order_type ops s x branch.rnd).order_heap_rnd.Nodup
    ∧ (insert_var_order_type ops s x branch.rnd).order_heap_rnd.count x = 1
    ∧ (insert_var_order_type ops s x branch.rnd).order_heap_rnd_inside.getD x 0 = 1
    ∧ (∀ v, v ≠ x →
        (v ∈ (insert_var_order_type ops s x branch.rnd).order_heap_rnd
          ↔ v ∈ s.order_heap_rnd)
        ∧ (insert_var_order_type ops s x branch.rnd).order_heap_rnd_inside.getD v 0
            = s.order_heap_rnd_inside.getD v 0) := by
  by_cases h0 : s.order_heap_rnd_inside.getD x 0 = 0
  · have hnot : x ∉ s.order_heap_rnd := by
      intro hm
      have := (hinv x).mpr hm
      omega
    simp only [insert_var_order_type, h0, if_true]
    refine ⟨?_, ?_, ?_, getD_set_eq _ _ _ _ hx, ?_⟩
    · intro v
      by_cases hv : v = x
      · subst hv
        rw [getD_set_eq _ _ _ _ hx]
        simp
      · rw [getD_set_ne _ _ _ _ _ (fun e => hv e.symm), hinv v]
        simp [hv]
    · rw [List.nodup_append]
      refine ⟨hnd, List.nodup_singleton x, ?_⟩
      intro a ha hb
      rw [List.mem_singleton] at hb
      subst hb
      exact hnot ha
    · rw [List.count_append, List.count_eq_zero_of_not_mem hnot]
      simp
    · intro v hv
      refine ⟨?_, getD_set_ne _ _ _ _ _ (fun e => hv e.symm)⟩
      simp [hv]
  · have h1 : s.order_heap_rnd_inside.getD x 0 = 1 := by
      rcases hbit with h | h
      · exact absurd h h0
      · exact h
    have hmem : x ∈ s.order_heap_rnd := (hinv x).mp h1
    have hs : insert_var_order_type ops s x branch.rnd = s := by
      simp only [insert_var_order_type, h0, if_false]
    rw [hs]
    refine ⟨hinv, hnd, List.count_eq_one_of_mem hnd hmem, h1, ?_⟩
    intro v _
    exact ⟨Iff.rfl, rfl⟩

/-- Evaluation of C14 on `sampleState` (bitmap `[0, 1, 0]`, worklist `[1]`): inserting
variable 2 keeps the worklist and the bitmap consistent. -/
theorem insert_var_order_rnd_consistent_witness :
    (2 < sampleState.order_heap_rnd_inside.length)
    ∧ sampleState.order_heap_rnd.Nodup
    ∧ (insert_var_order_type sampleHeap sampleState 2 branch.rnd).order_heap_rnd.count 2 = 1 :=
  ⟨by decide, by decide,
   (insert_var_order_rnd_consistent sampleHeap sampleState 2 (by decide) (by decide)
      (by
        intro v
        match v with
        | 0 => decide
        | 1 => decide
        | 2 => decide
        | n + 3 => simp [sampleState])
      (by decide)).2.2.1⟩

/-- C15: for `x` in range of `vmtf_btab`, `insert_var_order(x, branch::vmtf)` calls
`vmtf_update_queue_unassigned(x)`, which makes `x` the queue's `unassigned` cursor, when the
bump stamp `vmtf_btab[x]` is strictly greater than the cursor's stamp
`vmtf_queue.vmtf_bumped`; when the stamp is equal or smaller the whole state is unchanged. -/
theorem insert_var_order_vmtf_spec (ops : HeapOps H) (s : Searcher H R) (x : Nat)
    (hx : x < s.vmtf_btab.length) :
    (s.vmtf_queue.vmtf_bumped < s.vmtf_btab.get ⟨x, hx⟩ →
      insert_var_order_type ops s x branch.vmtf = vmtf_update_queue_unassigned s x
      ∧ (insert_var_order_type ops s x branch.vmtf).vmtf_queue.unassigned = x)
    ∧ (s.vmtf_btab.get ⟨x, hx⟩ ≤ s.vmtf_queue.vmtf_bumped →
      insert_var_order_type ops s x branch.vmtf = s) := by
  have hg : s.vmtf_btab.getD x 0 = s.vmtf_btab.get ⟨x, hx⟩ := by
    rw [List.getD_eq_getElem _ _ hx, List.get_eq_getElem]
  constructor
  · intro h
    have h2 : s.vmtf_queue.vmtf_bumped < s.vmtf_btab.getD x 0 := by
      rw [hg]
      exact h
    have hs : insert_var_order_type ops s x branch.vmtf = vmtf_update_queue_unassigned s x := by
      simp only [insert_var_order_type, h2, if_true]
    rw [hs]
    exact ⟨rfl, rfl⟩
  · intro h
    have h2 : ¬ s.vmtf_queue.vmtf_bumped < s.vmtf_btab.getD x 0 := by
      rw [hg]
      exact not_lt.mpr h
    simp only [insert_var_order_type, h2, if_false]

/-- Evaluation of C15 on `sampleState` (cursor stamp 4, stamps `[3, 4, 5]`): variable 2 has
a greater stamp and becomes the cursor. -/
theorem insert_var_order_vmtf_spec_witness :
    (2 < sampleState.vmtf_btab.length)
    ∧ sampleState.vmtf_queue.vmtf_bumped < sampleState.vmtf_btab.getD 2 0
    ∧ (insert_var_order_type sampleHeap sampleState 2 branch.vmtf).vmtf_queue.unassigned = 2 :=
  ⟨by decide, by decide,
   ((insert_var_order_vmtf_spec sampleHeap sampleState 2 (by decide)).1 (by decide)).2⟩

/-! ## Lemmas on the level mask -/

theorem abstractLevel_eq_pow (s : Searcher H R) (x : Nat) :
    abstractLevel s x = 2 ^ ((s.varData.getD x default).level % 32) :=
  shift_mask_eq_pow _

theorem foldl_or_testBit (f : Nat → Nat) (vs : List Nat) (m0 i : Nat) :
    (vs.foldl (fun m v => m ||| f v) m0).testBit i
      = (m0.testBit i || vs.any (fun v => (f v).testBit i)) := by
  induction vs generalizing m0 with
  | nil => simp
  | cons a t ih =>
    rw [List.foldl_cons, ih, Nat.testBit_or, List.any_cons, Bool.or_assoc]

/-- C16: with `mask` the bitwise OR of `abstractLevel(v)` over a list `vs` of variables, if
some `v` in `vs` has the same decision level as `x` then `abstractLevel(x) & mask` is not
zero; equivalently, when it is zero the level of `x` differs from the level of every `v` in
`vs`. The converse fails: in `sampleState` variables 1 and 2 have the levels 33 and 1, and
the test does not reject variable 1 against the mask of `[2]`. -/
theorem abstractLevel_mask_sound (s : Searcher H R) (vs : List Nat) (x : Nat) :
    ((∃ v ∈ vs, (s.varData.getD v default).level = (s.varData.getD x default).level) →
      abstractLevel s x &&& vs.foldl (fun m v => m ||| abstractLevel s v) 0 ≠ 0)
    ∧ (abstractLevel s x &&& vs.foldl (fun m v => m ||| abstractLevel s v) 0 = 0 →
      ∀ v ∈ vs, (s.varData.getD v default).level ≠ (s.varData.getD x default).level)
    ∧ (abstractLevel sampleState 1
          &&& [2].foldl (fun m v => m ||| abstractLevel sampleState v) 0 ≠ 0
        ∧ (sampleState.varData.getD 2 default).level
            ≠ (sampleState.varData.getD 1 default).level) := by
  have key : (∃ v ∈ vs, (s.varData.getD v default).level = (s.varData.getD x default).level) →
      abstractLevel s x &&& vs.foldl (fun m v => m ||| abstractLevel s v) 0 ≠ 0 := by
    rintro ⟨v, hv, hl⟩ hz
    have hb : (abstractLevel s x &&& vs.foldl (fun m v => m ||| abstractLevel s v) 0).testBit
        ((s.varData.getD x default).level % 32) = true := by
      rw [Nat.testBit_and, foldl_or_testBit, abstractLevel_eq_pow, Nat.testBit_two_pow]
      simp only [decide_True, Nat.zero_testBit, Bool.false_or, Bool.true_and, List.any_eq_true]
      refine ⟨v, hv, ?_⟩
      rw [abstractLevel_eq_pow, Nat.testBit_two_pow, hl]
      simp
    rw [hz, Nat.zero_testBit] at hb
    exact Bool.noConfusion hb
  refine ⟨key, ?_, ?_, ?_⟩
  · intro hz v hv hl
    exact key ⟨v, hv, hl⟩ hz
  · decide
  · decide

/-- Evaluation of C16 on `sampleState`: variable 1 has the level of variable 1 in the list
`[0, 1]`, and the masked test is not zero. -/
theorem abstractLevel_mask_sound_witness :
    abstractLevel sampleState 1
      &&& [0, 1].foldl (fun m v => m ||| abstractLevel sampleState v) 0 ≠ 0 :=
  (abstractLevel_mask_sound sampleState [0, 1] 1).1 ⟨1, by decide, rfl⟩

theorem Lit.eq_iff_x (p q : Lit) : p = q ↔ p.x = q.x := by
  constructor
  · intro h
    rw [h]
  · intro h
    cases p
    cases q
    simp only at h
    rw [h]

theorem Lit.neg_x_eq_iff (p q : Lit) : p.neg.x = q.neg.x ↔ p.x = q.x := by
  have hp1 := Lit.neg_x_mod p
  have hp2 := Lit.neg_x_div p
  have hq1 := Lit.neg_x_mod q
  have hq2 := Lit.neg_x_div q
  omega

/-- C17: `AssumptionPair::operator<` is a strict weak ordering: irreflexive, asymmetric,
transitive, and incomparability is transitive. Two pairs are incomparable exactly when they
have the same `lit_outer`. `operator==` refines it: equal pairs are incomparable, while two
pairs with the same `lit_outer` and different `lit_orig_outside` are incomparable and not
equal. -/
theorem AssumptionPair_strict_weak_order (a b c : AssumptionPair) :
    a.lt a = false
    ∧ (a.lt b = true → b.lt a = false)
    ∧ (a.lt b = true → b.lt c = true → a.lt c = true)
    ∧ (a.lt b = false ∧ b.lt a = false → b.lt c = false ∧ c.lt b = false →
        a.lt c = false ∧ c.lt a = false)
    ∧ ((a.lt b = false ∧ b.lt a = false) ↔ a.lit_outer = b.lit_outer)
    ∧ (a.eq b = true → a.lt b = false ∧ b.lt a = false)
    ∧ (a.lit_outer = b.lit_outer → a.lit_orig_outside ≠ b.lit_orig_outside →
        a.lt b = false ∧ b.lt a = false ∧ a.eq b = false) := by
  have hinc : ∀ p q : AssumptionPair,
      (p.lt q = false ∧ q.lt p = false) ↔ p.lit_outer = q.lit_outer := by
    intro p q
    rw [Lit.eq_iff_x, ← Lit.neg_x_eq_iff]
    simp only [AssumptionPair.lt, Lit.lt, decide_eq_false_iff_not]
    omega
  refine ⟨?_, ?_, ?_, ?_, hinc a b, ?_, ?_⟩
  · simp [AssumptionPair.lt, Lit.lt]
  · simp only [AssumptionPair.lt, Lit.lt, decide_eq_true_eq, decide_eq_false_iff_not]
    omega
  · simp only [AssumptionPair.lt, Lit.lt, decide_eq_true_eq]
    omega
  · simp only [AssumptionPair.lt, Lit.lt, decide_eq_false_iff_not]
    omega
  · intro h
    apply (hinc a b).mpr
    simp only [AssumptionPair.eq, Bool.and_eq_true, beq_iff_eq] at h
    exact h.1.symm
  · intro h1 h2
    have h3 := (hinc a b).mpr h1
    refine ⟨h3.1, h3.2, ?_⟩
    simp only [AssumptionPair.eq, Bool.and_eq_false_iff, beq_eq_false_iff_ne, ne_eq]
    exact Or.inr (fun e => h2 e.symm)

/-- Evaluation of C17: two pairs with the same internal literal and different outside
literals are incomparable and not equal. -/
theorem AssumptionPair_strict_weak_order_witness :
    AssumptionPair.lt ⟨Lit.ofVar 1 true, Lit.ofVar 5 false⟩
        ⟨Lit.ofVar 1 true, Lit.ofVar 4 true⟩ = false
    ∧ AssumptionPair.lt ⟨Lit.ofVar 1 true, Lit.ofVar 4 true⟩
        ⟨Lit.ofVar 1 true, Lit.ofVar 5 false⟩ = false
    ∧ AssumptionPair.eq ⟨Lit.ofVar 1 true, Lit.ofVar 5 false⟩
        ⟨Lit.ofVar 1 true, Lit.ofVar 4 true⟩ = false :=
  (AssumptionPair_strict_weak_order ⟨Lit.ofVar 1 true, Lit.ofVar 5 false⟩
    ⟨Lit.ofVar 1 true, Lit.ofVar 4 true⟩ ⟨Lit.ofVar 0 false, Lit.ofVar 0 false⟩).2.2.2.2.2.2
    rfl (by decide)

/-! ## Rounding to nearest -/

theorem floor_le_rne (t : ℚ) : ⌊t⌋ ≤ rne t := by
  unfold rne
  split_ifs <;> omega

theorem rne_le_floor_succ (t : ℚ) : rne t ≤ ⌊t⌋ + 1 := by
  unfold rne
  split_ifs <;> omega

theorem int_le_rne (t : ℚ) (n : ℤ) (h : (n : ℚ) ≤ t) : n ≤ rne t :=
  le_trans (Int.le_floor.mpr h) (floor_le_rne t)

theorem rne_le_int (t : ℚ) (n : ℤ) (h : t ≤ (n : ℚ)) : rne t ≤ n := by
  by_cases hf : t - ⌊t⌋ < 1 / 2
  · have : rne t = ⌊t⌋ := by
      unfold rne
      rw [if_pos hf]
    rw [this]
    exact_mod_cast le_trans (Int.floor_le t) h
  · have hlt : ⌊t⌋ < n := by
      by_contra hc
      have hc2 : (n : ℚ) ≤ ⌊t⌋ := by exact_mod_cast not_lt.mp hc
      have := Int.floor_le t
      have h3 : t - ⌊t⌋ ≤ 0 := by linarith
      exact hf (by linarith)
    have := rne_le_floor_succ t
    omega

theorem rne_intCast (z : ℤ) : rne (z : ℚ) = z := by
  simp [rne]

theorem rne_mono (t u : ℚ) (h : t ≤ u) : rne t ≤ rne u := by
  have hfl : ⌊t⌋ ≤ ⌊u⌋ := Int.floor_mono h
  rcases lt_or_eq_of_le hfl with hlt | heq
  · have h1 := rne_le_floor_succ t
    have h2 := floor_le_rne u
    omega
  · have hq : ((⌊t⌋ : ℤ) : ℚ) = ((⌊u⌋ : ℤ) : ℚ) := by rw [heq]
    unfold rne
    split_ifs with a1 a2 a3 a4 a5 a6 a7 a8 a9 <;> first | omega | (exfalso; linarith)

theorem rne_eq_of_abs_lt (t : ℚ) (n : ℤ) (h : |t - n| < 1 / 2) : rne t = n := by
  rw [abs_lt] at h
  apply le_antisymm
  · by_cases hn : t ≤ n
    · exact rne_le_int t n hn
    · have hfl : ⌊t⌋ = n := by
        rw [Int.floor_eq_iff]
        constructor <;> linarith
      have h1 : t - ⌊t⌋ < 1 / 2 := by rw [hfl]; linarith
      unfold rne
      rw [if_pos h1, hfl]
  · by_cases hn : (n : ℚ) ≤ t
    · exact int_le_rne t n hn
    · have hfl : ⌊t⌋ = n - 1 := by
        rw [Int.floor_eq_iff]
        push_cast
        constructor <;> linarith
      have h1 : ¬ (t - ⌊t⌋ < 1 / 2) := by rw [hfl]; push_cast; linarith
      have h2 : 1 / 2 < t - ⌊t⌋ := by rw [hfl]; push_cast; linarith
      unfold rne
      rw [if_neg h1, if_pos h2, hfl]
      omega

theorem two_zpow_pos (e : ℤ) : (0 : ℚ) < 2 ^ e := zpow_pos (by norm_num) e

theorem two_zpow_mono (a b : ℤ) (h : a ≤ b) : (2 : ℚ) ^ a ≤ 2 ^ b :=
  zpow_le_zpow_right₀ (by norm_num) h

theorem roundNE_le (f : FpFormat) (x : ℚ) (N : ℤ) (h : x ≤ N * 2 ^ ulpExp f x) :
    roundNE f x ≤ N * 2 ^ ulpExp f x := by
  unfold roundNE
  have hu := two_zpow_pos (ulpExp f x)
  have h1 : x / 2 ^ ulpExp f x ≤ N := by
    rw [div_le_iff₀ hu]
    exact h
  have h2 : ((rne (x / 2 ^ ulpExp f x) : ℤ) : ℚ) ≤ N := by
    exact_mod_cast rne_le_int _ _ h1
  exact mul_le_mul_of_nonneg_right h2 hu.le

theorem le_roundNE (f : FpFormat) (x : ℚ) (N : ℤ) (h : N * 2 ^ ulpExp f x ≤ x) :
    N * 2 ^ ulpExp f x ≤ roundNE f x := by
  unfold roundNE
  have hu := two_zpow_pos (ulpExp f x)
  have h1 : (N : ℚ) ≤ x / 2 ^ ulpExp f x := by
    rw [le_div_iff₀ hu]
    exact h
  have h2 : (N : ℚ) ≤ ((rne (x / 2 ^ ulpExp f x) : ℤ) : ℚ) := by
    exact_mod_cast int_le_rne _ _ h1
  exact mul_le_mul_of_nonneg_right h2 hu.le

theorem ulpExp_add_mant (f : FpFormat) (x : ℚ) :
    ulpExp f x + f.mant = max (Int.log 2 |x|) f.emin := by
  unfold ulpExp
  omega

/-- The top of the binade of `x`, as a multiple of the unit in the last place. -/
theorem top_eq (f : FpFormat) (x : ℚ) :
    (((2 ^ (f.mant + 1) : ℕ) : ℤ) : ℚ) * 2 ^ ulpExp f x
      = 2 ^ (max (Int.log 2 |x|) f.emin + 1) := by
  rw [← ulpExp_add_mant]
  push_cast
  rw [← zpow_natCast, ← zpow_add₀ (by norm_num : (2 : ℚ) ≠ 0)]
  congr 1
  push_cast
  ring

/-- The bottom of the binade of `x`, as a multiple of the unit in the last place. -/
theorem bottom_eq (f : FpFormat) (x : ℚ) :
    (((2 ^ f.mant : ℕ) : ℤ) : ℚ) * 2 ^ ulpExp f x = 2 ^ (max (Int.log 2 |x|) f.emin) := by
  rw [← ulpExp_add_mant]
  push_cast
  rw [← zpow_natCast, ← zpow_add₀ (by norm_num : (2 : ℚ) ≠ 0)]
  congr 1
  ring

theorem abs_lt_top (f : FpFormat) (x : ℚ) :
    |x| < 2 ^ (max (Int.log 2 |x|) f.emin + 1) := by
  have h1 : |x| < ((2 : ℕ) : ℚ) ^ (Int.log 2 |x| + 1) :=
    Int.lt_zpow_succ_log_self (by norm_num) _
  have h2 : (2 : ℚ) ^ (Int.log 2 |x| + 1) ≤ 2 ^ (max (Int.log 2 |x|) f.emin + 1) :=
    two_zpow_mono _ _ (by omega)
  have h3 : ((2 : ℕ) : ℚ) = 2 := by norm_num
  rw [h3] at h1
  exact lt_of_lt_of_le h1 h2

theorem bottom_le_abs (f : FpFormat) (x : ℚ) (hx : x ≠ 0)
    (h : f.emin < max (Int.log 2 |x|) f.emin) :
    (2 : ℚ) ^ (max (Int.log 2 |x|) f.emin) ≤ |x| := by
  have hm : max (Int.log 2 |x|) f.emin = Int.log 2 |x| := by omega
  rw [hm]
  have h1 : ((2 : ℕ) : ℚ) ^ Int.log 2 |x| ≤ |x| :=
    Int.zpow_log_le_self (by norm_num) (abs_pos.mpr hx)
  have h3 : ((2 : ℕ) : ℚ) = 2 := by norm_num
  rw [h3] at h1
  exact h1

theorem binade_mono (f : FpFormat) (x y : ℚ) (hx : x ≠ 0) (h : |x| ≤ |y|) :
    max (Int.log 2 |x|) f.emin ≤ max (Int.log 2 |y|) f.emin := by
  have := @Int.log_mono_right ℚ _ _ 2 _ _ (abs_pos.mpr hx) h
  omega

theorem roundNE_mono_pos (f : FpFormat) (x y : ℚ) (hx : 0 < x) (h : x ≤ y) :
    roundNE f x ≤ roundNE f y := by
  have hy : 0 < y := lt_of_lt_of_le hx h
  have hax : |x| = x := abs_of_pos hx
  have hay : |y| = y := abs_of_pos hy
  have hE := binade_mono f x y hx.ne' (by rw [hax, hay]; exact h)
  rcases lt_or_eq_of_le hE with hlt | heq
  · -- different binades: the top of the lower one separates the results
    have h1 : roundNE f x ≤ 2 ^ (max (Int.log 2 |x|) f.emin + 1) := by
      rw [← top_eq]
      apply roundNE_le
      rw [top_eq]
      have := abs_lt_top f x
      linarith
    have h2 : (2 : ℚ) ^ (max (Int.log 2 |y|) f.emin) ≤ roundNE f y := by
      rw [← bottom_eq]
      apply le_roundNE
      rw [bottom_eq]
      have := bottom_le_abs f y hy.ne' (by omega)
      linarith
    exact le_trans h1 (le_trans (two_zpow_mono _ _ (by omega)) h2)
  · have hu : ulpExp f x = ulpExp f y := by
      unfold ulpExp
      rw [heq]
    unfold roundNE
    rw [hu]
    have hpos := two_zpow_pos (ulpExp f y)
    have h1 : x / 2 ^ ulpExp f y ≤ y / 2 ^ ulpExp f y :=
      div_le_div_of_nonneg_right h hpos.le
    have h2 : ((rne (x / 2 ^ ulpExp f y) : ℤ) : ℚ) ≤ ((rne (y / 2 ^ ulpExp f y) : ℤ) : ℚ) := by
      exact_mod_cast rne_mono _ _ h1
    exact mul_le_mul_of_nonneg_right h2 hpos.le

theorem roundNE_mono_neg (f : FpFormat) (x y : ℚ) (hy : y < 0) (h : x ≤ y) :
    roundNE f x ≤ roundNE f y := by
  have hx : x < 0 := lt_of_le_of_lt h hy
  have hax : |x| = -x := abs_of_neg hx
  have hay : |y| = -y := abs_of_neg hy
  have hE := binade_mono f y x hy.ne (by rw [hax, hay]; linarith)
  rcases lt_or_eq_of_le hE with hlt | heq
  · have h1 : -(2 : ℚ) ^ (max (Int.log 2 |y|) f.emin + 1) ≤ roundNE f y := by
      have e : -(2 : ℚ) ^ (max (Int.log 2 |y|) f.emin + 1)
          = ((-((2 ^ (f.mant + 1) : ℕ) : ℤ) : ℤ) : ℚ) * 2 ^ ulpExp f y := by
        rw [← top_eq]
        push_cast
        ring
      rw [e]
      apply le_roundNE
      rw [← e]
      have := abs_lt_top f y
      linarith
    have h2 : roundNE f x ≤ -(2 : ℚ) ^ (max (Int.log 2 |x|) f.emin) := by
      have e : -(2 : ℚ) ^ (max (Int.log 2 |x|) f.emin)
          = ((-((2 ^ f.mant : ℕ) : ℤ) : ℤ) : ℚ) * 2 ^ ulpExp f x := by
        rw [← bottom_eq]
        push_cast
        ring
      rw [e]
      apply roundNE_le
      rw [← e]
      have := bottom_le_abs f x hx.ne (by omega)
      linarith
    have h3 := two_zpow_mono (max (Int.log 2 |y|) f.emin + 1) (max (Int.log 2 |x|) f.emin)
      (by omega)
    linarith
  · have hu : ulpExp f x = ulpExp f y := by
      unfold ulpExp
      rw [heq]
    unfold roundNE
    rw [hu]
    have hpos := two_zpow_pos (ulpExp f y)
    have h1 : x / 2 ^ ulpExp f y ≤ y / 2 ^ ulpExp f y :=
      div_le_div_of_nonneg_right h hpos.le
    have h2 : ((rne (x / 2 ^ ulpExp f y) : ℤ) : ℚ) ≤ ((rne (y / 2 ^ ulpExp f y) : ℤ) : ℚ) := by
      exact_mod_cast rne_mono _ _ h1
    exact mul_le_mul_of_nonneg_right h2 hpos.le

theorem roundNE_nonneg (f : FpFormat) (x : ℚ) (hx : 0 ≤ x) : 0 ≤ roundNE f x := by
  have := le_roundNE f x 0 (by simpa using hx)
  simpa using this

theorem roundNE_nonpos (f : FpFormat) (x : ℚ) (hx : x ≤ 0) : roundNE f x ≤ 0 := by
  have := roundNE_le f x 0 (by simpa using hx)
  simpa using this

/-- Rounding to nearest is monotone. -/
theorem roundNE_mono (f : FpFormat) (x y : ℚ) (h : x ≤ y) : roundNE f x ≤ roundNE f y := by
  rcases lt_or_le 0 x with hx | hx
  · exact roundNE_mono_pos f x y hx h
  · rcases lt_or_le y 0 with hy | hy
    · exact roundNE_mono_neg f x y hy h
    · exact le_trans (roundNE_nonpos f x hx) (roundNE_nonneg f y hy)

theorem roundNE_zero (f : FpFormat) : roundNE f 0 = 0 := by
  simp [roundNE, rne]

/-- A multiple `m * 2^k` of a power of two with `|m| < 2^(mant+1)` and `k` not below the
exponent of the smallest subnormal is a fixed point of the rounding. -/
theorem roundNE_repr (f : FpFormat) (m k : ℤ) (hm : |m| < 2 ^ (f.mant + 1))
    (hk : f.emin - f.mant ≤ k) : roundNE f (m * 2 ^ k) = m * 2 ^ k := by
  by_cases h0 : m = 0
  · subst h0
    simp [roundNE_zero]
  · have hxne : (m : ℚ) * 2 ^ k ≠ 0 :=
      mul_ne_zero (by exact_mod_cast h0) (two_zpow_pos k).ne'
    have habs : |(m : ℚ) * 2 ^ k| < 2 ^ ((f.mant : ℤ) + 1 + k) := by
      rw [abs_mul, abs_of_pos (two_zpow_pos k), zpow_add₀ (by norm_num : (2 : ℚ) ≠ 0)]
      apply mul_lt_mul_of_pos_right _ (two_zpow_pos k)
      have : ((|m| : ℤ) : ℚ) < ((2 ^ (f.mant + 1) : ℤ) : ℚ) := by exact_mod_cast hm
      push_cast at this
      rw [show ((f.mant : ℤ) + 1) = ((f.mant + 1 : ℕ) : ℤ) by push_cast; rfl, zpow_natCast]
      exact this
    have hlog : Int.log 2 |(m : ℚ) * 2 ^ k| < (f.mant : ℤ) + 1 + k := by
      rw [← Int.lt_zpow_iff_log_lt (by norm_num) (abs_pos.mpr hxne)]
      have h3 : ((2 : ℕ) : ℚ) = 2 := by norm_num
      rw [h3]
      exact habs
    have hue : ulpExp f ((m : ℚ) * 2 ^ k) ≤ k := by
      unfold ulpExp
      omega
    obtain ⟨n, hn⟩ : ∃ n : ℕ, k = ulpExp f ((m : ℚ) * 2 ^ k) + n :=
      ⟨(k - ulpExp f ((m : ℚ) * 2 ^ k)).toNat, by omega⟩
    have hpos := two_zpow_pos (ulpExp f ((m : ℚ) * 2 ^ k))
    have hsplit : (2 : ℚ) ^ k = 2 ^ ulpExp f ((m : ℚ) * 2 ^ k) * 2 ^ n := by
      conv_lhs => rw [hn]
      rw [zpow_add₀ (by norm_num : (2 : ℚ) ≠ 0), zpow_natCast]
    have hdiv : (m : ℚ) * 2 ^ k / 2 ^ ulpExp f ((m : ℚ) * 2 ^ k) = ((m * 2 ^ n : ℤ) : ℚ) := by
      rw [div_eq_iff hpos.ne']
      conv_lhs => rw [hsplit]
      push_cast
      ring
    unfold roundNE
    rw [hdiv, rne_intCast]
    conv_rhs => rw [hsplit]
    push_cast
    ring

theorem fround_of_roundNE (f : FpFormat) (x r : ℚ) (h : roundNE f x = r)
    (hlo : -(2 ^ (f.emax + 1)) < r) (hhi : r < 2 ^ (f.emax + 1)) : fround f x = Fp.fin r := by
  unfold fround
  rw [h, if_neg (not_le.mpr hhi), if_neg (not_le.mpr hlo)]

/-- A representable number is a fixed point of the rounding to the format. -/
theorem fround_repr (f : FpFormat) (m k : ℤ) (hm : |m| < 2 ^ (f.mant + 1))
    (hk : f.emin - f.mant ≤ k) (hlo : -(2 ^ (f.emax + 1)) < (m : ℚ) * 2 ^ k)
    (hhi : (m : ℚ) * 2 ^ k < 2 ^ (f.emax + 1)) :
    fround f (m * 2 ^ k) = Fp.fin (m * 2 ^ k) :=
  fround_of_roundNE f _ _ (roundNE_repr f m k hm hk) hlo hhi

theorem fround_ne_nan (f : FpFormat) (x : ℚ) : fround f x ≠ Fp.nan := by
  unfold fround
  split_ifs <;> simp

/-- Rounding to the format is monotone. -/
theorem fround_mono (f : FpFormat) (x y : ℚ) (h : x ≤ y) :
    Fp.le (fround f x) (fround f y) = true := by
  have hr := roundNE_mono f x y h
  have hT := two_zpow_pos (f.emax + 1)
  unfold fround
  split_ifs <;> simp [Fp.le] <;> linarith

theorem ulpExp_eq (f : FpFormat) (x : ℚ) (e : ℤ) (hlo : 2 ^ e ≤ x) (hhi : x < 2 ^ (e + 1))
    (he : f.emin ≤ e) : ulpExp f x = e - f.mant := by
  have hx : 0 < x := lt_of_lt_of_le (two_zpow_pos e) hlo
  have hax : |x| = x := abs_of_pos hx
  rw [← hax] at hlo hhi
  have hpos : 0 < |x| := lt_of_lt_of_le (two_zpow_pos e) hlo
  have h3 : ((2 : ℕ) : ℚ) = 2 := by norm_num
  have h1 : e ≤ Int.log 2 |x| := by
    rw [← Int.zpow_le_iff_le_log (by norm_num) hpos, h3]
    exact hlo
  have h2 : Int.log 2 |x| < e + 1 := by
    rw [← Int.lt_zpow_iff_log_lt (by norm_num) hpos, h3]
    exact hhi
  unfold ulpExp
  omega

theorem roundNE_eq (f : FpFormat) (x : ℚ) (u n : ℤ) (hu : ulpExp f x = u)
    (h : |x / 2 ^ u - n| < 1 / 2) : roundNE f x = n * 2 ^ u := by
  unfold roundNE
  rw [hu, rne_eq_of_abs_lt _ n h]

/-! ## Values of the literals -/

theorem lit_1e100 : fround binary64 (10 ^ 100) = Fp.fin (5147557589468029 * 2 ^ 280) := by
  have hu : ulpExp binary64 (10 ^ 100) = 280 := by
    rw [ulpExp_eq binary64 (10 ^ 100) 332 (by norm_num) (by norm_num) (by norm_num [binary64])]
    norm_num [binary64]
  have hr := roundNE_eq binary64 (10 ^ 100) 280 5147557589468029 hu
    (by rw [abs_lt]; norm_num)
  exact fround_of_roundNE _ _ _ (by rw [hr]; norm_num) (by norm_num [binary64])
    (by norm_num [binary64])

theorem lit_1em100 :
    fround binary64 (1 / 10 ^ 100) = Fp.fin (492525077454931 / 2 ^ 381) := by
  have hu : ulpExp binary64 (1 / 10 ^ 100) = -385 := by
    rw [ulpExp_eq binary64 (1 / 10 ^ 100) (-333) (by norm_num) (by norm_num)
      (by norm_num [binary64])]
    norm_num [binary64]
  have hr := roundNE_eq binary64 (1 / 10 ^ 100) (-385) 7880401239278896 hu
    (by rw [abs_lt]; norm_num)
  exact fround_of_roundNE _ _ _ (by rw [hr]; norm_num) (by norm_num [binary64])
    (by norm_num [binary64])

theorem lit_1e20 : fround binary64 (10 ^ 20) = Fp.fin (10 ^ 20) := by
  have h := fround_repr binary64 95367431640625 20 (by norm_num [binary64])
    (by norm_num [binary64]) (by norm_num [binary64]) (by norm_num [binary64])
  have e : ((95367431640625 : ℤ) : ℚ) * 2 ^ (20 : ℤ) = 10 ^ 20 := by norm_num
  rw [e] at h
  exact h

theorem lit_1em20 :
    fround binary64 (1 / 10 ^ 20) = Fp.fin (6646139978924579 / 2 ^ 119) := by
  have hu : ulpExp binary64 (1 / 10 ^ 20) = -119 := by
    rw [ulpExp_eq binary64 (1 / 10 ^ 20) (-67) (by norm_num) (by norm_num)
      (by norm_num [binary64])]
    norm_num [binary64]
  have hr := roundNE_eq binary64 (1 / 10 ^ 20) (-119) 6646139978924579 hu
    (by rw [abs_lt]; norm_num)
  exact fround_of_roundNE _ _ _ (by rw [hr]; norm_num) (by norm_num [binary64])
    (by norm_num [binary64])

theorem lit_1e20F : fround binary32 (10 ^ 20) = Fp.fin 100000002004087734272 := by
  have hu : ulpExp binary32 (10 ^ 20) = 43 := by
    rw [ulpExp_eq binary32 (10 ^ 20) 66 (by norm_num) (by norm_num) (by norm_num [binary32])]
    norm_num [binary32]
  have hr := roundNE_eq binary32 (10 ^ 20) 43 11368684 hu (by rw [abs_lt]; norm_num)
  exact fround_of_roundNE _ _ _ (by rw [hr]; norm_num) (by norm_num [binary32])
    (by norm_num [binary32])

theorem lit_1em20F :
    Fp.conv binary32 (fround binary64 (1 / 10 ^ 20)) = Fp.fin (1547425 / 2 ^ 87) := by
  rw [lit_1em20]
  show fround binary32 (6646139978924579 / 2 ^ 119) = _
  have hu : ulpExp binary32 (6646139978924579 / 2 ^ 119) = -90 := by
    rw [ulpExp_eq binary32 (6646139978924579 / 2 ^ 119) (-67) (by norm_num) (by norm_num)
      (by norm_num [binary32])]
    norm_num [binary32]
  have hr := roundNE_eq binary32 (6646139978924579 / 2 ^ 119) (-90) 12379400 hu
    (by rw [abs_lt]; norm_num)
  exact fround_of_roundNE _ _ _ (by rw [hr]; norm_num) (by norm_num [binary32])
    (by norm_num [binary32])

/-! ## The order of the values -/

theorem fp_le_trans (a b c : Fp) (h1 : Fp.le a b = true) (h2 : Fp.le b c = true) :
    Fp.le a c = true := by
  cases a <;> cases b <;> cases c <;> simp [Fp.le] at h1 h2 ⊢
  exact le_trans h1 h2

theorem fp_le_of_lt (a b : Fp) (h : Fp.lt a b = true) : Fp.le a b = true := by
  cases a <;> cases b <;> simp [Fp.le, Fp.lt] at h ⊢
  exact le_of_lt h

theorem fp_le_left (a b : Fp) (h : Fp.le a b = true) : Fp.le a a = true := by
  cases a <;> cases b <;> simp [Fp.le] at h ⊢

theorem fp_le_right (a b : Fp) (h : Fp.le a b = true) : Fp.le b b = true := by
  cases a <;> cases b <;> simp [Fp.le] at h ⊢

theorem fp_le_of_not_lt (a b : Fp) (ha : Fp.le a a = true) (hb : Fp.le b b = true)
    (h : Fp.lt a b = false) : Fp.le b a = true := by
  cases a <;> cases b <;> simp [Fp.le, Fp.lt] at ha hb h ⊢
  exact h

theorem fp_not_lt_of_le (a b : Fp) (h : Fp.le a b = true) : Fp.lt b a = false := by
  cases a <;> cases b <;> simp [Fp.le, Fp.lt] at h ⊢
  exact h

theorem fround_le_pinf (f : FpFormat) (x : ℚ) : Fp.le (fround f x) Fp.pinf = true := by
  unfold fround
  split_ifs <;> simp [Fp.le]

theorem ninf_le_fround (f : FpFormat) (x : ℚ) : Fp.le Fp.ninf (fround f x) = true := by
  unfold fround
  split_ifs <;> simp [Fp.le]

theorem fround_zero (f : FpFormat) : fround f 0 = Fp.fin 0 :=
  fround_of_roundNE f 0 0 (roundNE_zero f) (by simpa using two_zpow_pos (f.emax + 1))
    (two_zpow_pos (f.emax + 1))

/-- A result that is at most a representable number rounds to at most that number. -/
theorem fround_le_of_le (f : FpFormat) (x t : ℚ) (ht : fround f t = Fp.fin t) (h : x ≤ t) :
    Fp.le (fround f x) (Fp.fin t) = true := by
  have := fround_mono f x t h
  rw [ht] at this
  exact this

/-- A result that is at least a representable number rounds to at least that number. -/
theorem le_fround_of_le (f : FpFormat) (x t : ℚ) (ht : fround f t = Fp.fin t) (h : t ≤ x) :
    Fp.le (Fp.fin t) (fround f x) = true := by
  have := fround_mono f t x h
  rw [ht] at this
  exact this

/-- The product with a positive finite constant is monotone. -/
theorem fp_mul_mono (f : FpFormat) (a b : Fp) (c : ℚ) (hc : 0 < c) (h : Fp.le a b = true) :
    Fp.le (Fp.mul f a (Fp.fin c)) (Fp.mul f b (Fp.fin c)) = true := by
  have hp : Fp.infMul true c = Fp.pinf := by simp [Fp.infMul, hc.ne', hc]
  have hn : Fp.infMul false c = Fp.ninf := by simp [Fp.infMul, hc.ne', hc]
  cases a <;> cases b <;> try (simp [Fp.le] at h <;> done)
  all_goals simp only [Fp.mul, hp, hn]
  all_goals first
    | exact fround_le_pinf _ _
    | exact ninf_le_fround _ _
    | rfl
    | (simp only [Fp.le, decide_eq_true_eq] at h
       exact fround_mono f _ _ (mul_le_mul_of_nonneg_right h hc.le))

/-- The sum of values that are not negative is monotone. -/
theorem fp_add_mono (f : FpFormat) (a b c d : Fp) (ha : Fp.le (Fp.fin 0) a = true)
    (hab : Fp.le a b = true) (hc : Fp.le (Fp.fin 0) c = true) (hcd : Fp.le c d = true) :
    Fp.le (Fp.add f a c) (Fp.add f b d) = true := by
  cases a <;> cases b <;> try (simp [Fp.le] at ha hab <;> done)
  all_goals cases c <;> cases d <;> try (simp [Fp.le] at hc hcd <;> done)
  all_goals simp only [Fp.add]
  all_goals first
    | exact fround_le_pinf _ _
    | rfl
    | (simp only [Fp.le, decide_eq_true_eq] at hab hcd
       exact fround_mono f _ _ (add_le_add hab hcd))

/-- The conversion to a format is monotone. -/
theorem fp_conv_mono (f : FpFormat) (a b : Fp) (h : Fp.le a b = true) :
    Fp.le (Fp.conv f a) (Fp.conv f b) = true := by
  cases a <;> cases b <;> try (simp [Fp.le] at h <;> done)
  all_goals simp only [Fp.conv]
  all_goals first
    | exact fround_le_pinf _ _
    | exact ninf_le_fround _ _
    | rfl
    | (simp only [Fp.le, decide_eq_true_eq] at h
       exact fround_mono f _ _ h)

/-! ## The arithmetic `ieee` satisfies the laws -/

theorem fround_repr_eq (f : FpFormat) (m k : ℤ) (t : ℚ) (ht : t = m * 2 ^ k)
    (hm : |m| < 2 ^ (f.mant + 1)) (hk : f.emin - f.mant ≤ k)
    (hlo : -(2 ^ (f.emax + 1)) < t) (hhi : t < 2 ^ (f.emax + 1)) :
    fround f t = Fp.fin t := by
  subst ht
  exact fround_repr f m k hm hk hlo hhi

theorem repr_1e100 :
    fround binary64 (5147557589468029 * 2 ^ 280) = Fp.fin (5147557589468029 * 2 ^ 280) :=
  fround_repr_eq binary64 5147557589468029 280 _ (by norm_num) (by norm_num [binary64])
    (by norm_num [binary64]) (by norm_num [binary64]) (by norm_num [binary64])

theorem repr_2e100 :
    fround binary64 (5147557589468029 * 2 ^ 280 + 5147557589468029 * 2 ^ 280)
      = Fp.fin (5147557589468029 * 2 ^ 280 + 5147557589468029 * 2 ^ 280) :=
  fround_repr_eq binary64 5147557589468029 281 _ (by norm_num) (by norm_num [binary64])
    (by norm_num [binary64]) (by norm_num [binary64]) (by norm_num [binary64])

theorem repr_1e20F :
    fround binary32 100000002004087734272 = Fp.fin 100000002004087734272 :=
  fround_repr_eq binary32 11368684 43 _ (by norm_num) (by norm_num [binary32])
    (by norm_num [binary32]) (by norm_num [binary32]) (by norm_num [binary32])

theorem repr_1e20F_double :
    fround binary64 100000002004087734272 = Fp.fin 100000002004087734272 :=
  fround_repr_eq binary64 11368684 43 _ (by norm_num) (by norm_num [binary64])
    (by norm_num [binary64]) (by norm_num [binary64]) (by norm_num [binary64])

theorem repr_sum_1e20 :
    fround binary64 (10 ^ 20 + 100000002004087734272)
      = Fp.fin (10 ^ 20 + 100000002004087734272) :=
  fround_repr_eq binary64 190734865192497 20 _ (by norm_num) (by norm_num [binary64])
    (by norm_num [binary64]) (by norm_num [binary64]) (by norm_num [binary64])

/-- The `float` nearest to `1e20 + 1e20F` is `11368684 * 2^44`. -/
theorem conv_sum_1e20 :
    fround binary32 (10 ^ 20 + 100000002004087734272) = Fp.fin (11368684 * 2 ^ 44) := by
  have hu : ulpExp binary32 (10 ^ 20 + 100000002004087734272) = 44 := by
    rw [ulpExp_eq binary32 _ 67 (by norm_num) (by norm_num) (by norm_num [binary32])]
    norm_num [binary32]
  have hr := roundNE_eq binary32 (10 ^ 20 + 100000002004087734272) 44 11368684 hu
    (by rw [abs_lt]; norm_num)
  exact fround_of_roundNE _ _ _ (by rw [hr]; norm_num) (by norm_num [binary32])
    (by norm_num [binary32])

/-- The smallest positive `double` is a fixed point of the rounding. -/
theorem repr_min_subnormal :
    roundNE binary64 (2 ^ (-1074 : ℤ)) = 2 ^ (-1074 : ℤ) := by
  have h := roundNE_repr binary64 1 (-1074) (by norm_num [binary64]) (by norm_num [binary64])
  simpa using h

/-- A `double` just above `1e20F` rounds to `1e20F`. -/
theorem round_above_1e20F :
    roundNE binary64 (100000002004087734272 + 2 ^ (-1074 : ℤ) / (6646139978924579 / 2 ^ 119))
      = 100000002004087734272 := by
  have hu : ulpExp binary64
      (100000002004087734272 + 2 ^ (-1074 : ℤ) / (6646139978924579 / 2 ^ 119)) = 14 := by
    rw [ulpExp_eq binary64 _ 66 (by norm_num) (by norm_num) (by norm_num [binary64])]
    norm_num [binary64]
  have hr := roundNE_eq binary64
    (100000002004087734272 + 2 ^ (-1074 : ℤ) / (6646139978924579 / 2 ^ 119)) 14
    6103515747319808 hu (by rw [abs_lt]; norm_num)
  rw [hr]
  norm_num

theorem fround_eq_zero (f : FpFormat) (x : ℚ) (h : Fp.ne (fround f x) (Fp.fin 0) = false) :
    roundNE f x = 0 := by
  unfold fround at h
  split_ifs at h <;> simp [Fp.ne] at h
  exact h

theorem fround_between (f : FpFormat) (x lo hi : ℚ) (h1 : lo ≤ roundNE f x)
    (h2 : roundNE f x ≤ hi) (hlo : -(2 ^ (f.emax + 1)) < lo) (hhi : hi < 2 ^ (f.emax + 1)) :
    fround f x = Fp.fin (roundNE f x) :=
  fround_of_roundNE f x _ rfl (lt_of_lt_of_le hlo h1) (lt_of_le_of_lt h2 hhi)

theorem ieee_small_inc_absorbed (a f : Fp) (ha : Fp.le (Fp.fin 0) a = true)
    (h0 : Fp.ne (Fp.mul binary64 a (Fp.fin (6646139978924579 / 2 ^ 119))) (Fp.fin 0) = false)
    (hf0 : Fp.le (Fp.fin 0) f = true) (hf : Fp.le f (Fp.fin 100000002004087734272) = true) :
    Fp.lt (Fp.fin 100000002004087734272) (Fp.conv binary32 (Fp.add binary64 a f)) = false := by
  cases a with
  | nan => simp [Fp.le] at ha
  | ninf => simp [Fp.le] at ha
  | pinf => simp [Fp.mul, Fp.infMul, Fp.ne] at h0
  | fin a0 =>
    cases f with
    | nan => simp [Fp.le] at hf0
    | ninf => simp [Fp.le] at hf0
    | pinf => simp [Fp.le] at hf
    | fin f0 =>
      simp only [Fp.le, decide_eq_true_eq] at ha hf0 hf
      have hz : roundNE binary64 (a0 * (6646139978924579 / 2 ^ 119)) = 0 :=
        fround_eq_zero _ _ h0
      have hsmall : a0 * (6646139978924579 / 2 ^ 119) < 2 ^ (-1074 : ℤ) := by
        by_contra hc
        have := roundNE_mono binary64 _ _ (not_lt.mp hc)
        rw [repr_min_subnormal, hz] at this
        exact absurd this (not_le.mpr (two_zpow_pos _))
      have ha0 : a0 ≤ 2 ^ (-1074 : ℤ) / (6646139978924579 / 2 ^ 119) := by
        rw [le_div_iff₀ (by norm_num)]
        exact hsmall.le
      have hup : roundNE binary64 (a0 + f0) ≤ 100000002004087734272 := by
        have := roundNE_mono binary64 (a0 + f0)
          (100000002004087734272 + 2 ^ (-1074 : ℤ) / (6646139978924579 / 2 ^ 119))
          (by linarith)
        rw [round_above_1e20F] at this
        exact this
      have hlow : 0 ≤ roundNE binary64 (a0 + f0) := roundNE_nonneg _ _ (by linarith)
      have hfin : Fp.add binary64 (Fp.fin a0) (Fp.fin f0)
          = Fp.fin (roundNE binary64 (a0 + f0)) :=
        fround_between binary64 _ 0 100000002004087734272 hlow hup
          (by norm_num [binary64]) (by norm_num [binary64])
      rw [hfin]
      apply fp_not_lt_of_le
      exact fround_le_of_le binary32 _ _ repr_1e20F hup

theorem ieee_laws : IEEELaws ieee where
  dle_trans := fp_le_trans
  dle_of_dlt := fp_le_of_lt
  dle_left := fp_le_left
  dle_right := fp_le_right
  dle_of_not_dlt := fp_le_of_not_lt
  dmul_mono := by
    intro a b h
    show Fp.le (Fp.mul binary64 a (fround binary64 (1 / 10 ^ 100)))
      (Fp.mul binary64 b (fround binary64 (1 / 10 ^ 100))) = true
    rw [lit_1em100]
    exact fp_mul_mono binary64 a b _ (by norm_num) h
  dadd_mono := fun a b c d => fp_add_mono binary64 a b c d
  dadd_zero := by
    show Fp.le (Fp.fin 0) (fround binary64 (0 + 0)) = true
    rw [add_zero, fround_zero]
    rfl
  dmul_zero := by
    show Fp.le (Fp.fin 0) (Fp.mul binary64 (Fp.fin 0) (fround binary64 (1 / 10 ^ 100))) = true
    rw [lit_1em100]
    show Fp.le (Fp.fin 0) (fround binary64 (0 * _)) = true
    rw [zero_mul, fround_zero]
    rfl
  d1e100_scaled := by
    show Fp.le (Fp.mul binary64 (fround binary64 (10 ^ 100)) (fround binary64 (1 / 10 ^ 100)))
      (fround binary64 (10 ^ 100)) = true
    rw [lit_1e100, lit_1em100]
    exact fround_le_of_le binary64 _ _ repr_1e100 (by norm_num)
  d1e100_twice_scaled := by
    show Fp.le (Fp.mul binary64
        (Fp.add binary64 (fround binary64 (10 ^ 100)) (fround binary64 (10 ^ 100)))
        (fround binary64 (1 / 10 ^ 100))) (fround binary64 (10 ^ 100)) = true
    rw [lit_1e100, lit_1em100]
    have h : Fp.add binary64 (Fp.fin (5147557589468029 * 2 ^ 280))
        (Fp.fin (5147557589468029 * 2 ^ 280))
        = Fp.fin (5147557589468029 * 2 ^ 280 + 5147557589468029 * 2 ^ 280) := repr_2e100
    rw [h]
    exact fround_le_of_le binary64 _ _ repr_1e100 (by norm_num)
  fle_trans := fp_le_trans
  fle_left := fp_le_left
  fle_of_not_flt := fp_le_of_not_lt
  fmul_mono := by
    intro a b h
    show Fp.le (Fp.mul binary32 a (Fp.conv binary32 (fround binary64 (1 / 10 ^ 20))))
      (Fp.mul binary32 b (Fp.conv binary32 (fround binary64 (1 / 10 ^ 20)))) = true
    rw [lit_1em20F]
    exact fp_mul_mono binary32 a b _ (by norm_num) h
  toFloat_mono := fp_conv_mono binary32
  toDouble_mono := fun _ _ h => h
  toDouble_zero := rfl
  f1e20_le_sum := by
    show Fp.le (fround binary32 (10 ^ 20)) (Fp.conv binary32
      (Fp.add binary64 (fround binary64 (10 ^ 20)) (fround binary32 (10 ^ 20)))) = true
    rw [lit_1e20, lit_1e20F]
    have h : Fp.add binary64 (Fp.fin (10 ^ 20)) (Fp.fin 100000002004087734272)
        = Fp.fin (10 ^ 20 + 100000002004087734272) := repr_sum_1e20
    rw [h]
    exact le_fround_of_le binary32 _ _ repr_1e20F (by norm_num)
  sum_scaled := by
    show Fp.le (Fp.mul binary32 (Fp.conv binary32
        (Fp.add binary64 (fround binary64 (10 ^ 20)) (fround binary32 (10 ^ 20))))
        (Fp.conv binary32 (fround binary64 (1 / 10 ^ 20)))) (fround binary32 (10 ^ 20)) = true
    rw [lit_1e20, lit_1e20F, lit_1em20F]
    have h : Fp.add binary64 (Fp.fin (10 ^ 20)) (Fp.fin 100000002004087734272)
        = Fp.fin (10 ^ 20 + 100000002004087734272) := repr_sum_1e20
    rw [h]
    have h2 : Fp.conv binary32 (Fp.fin (10 ^ 20 + 100000002004087734272))
        = Fp.fin (11368684 * 2 ^ 44) := conv_sum_1e20
    rw [h2]
    exact fround_le_of_le binary32 _ _ repr_1e20F (by norm_num)
  small_inc_absorbed := by
    intro a f ha h0 hf0 hf
    have h0' : Fp.ne (Fp.mul binary64 a (fround binary64 (1 / 10 ^ 20))) (Fp.fin 0) = false := h0
    have hf' : Fp.le f (fround binary32 (10 ^ 20)) = true := hf
    rw [lit_1em20] at h0'
    rw [lit_1e20F] at hf'
    show Fp.lt (fround binary32 (10 ^ 20)) (Fp.conv binary32 (Fp.add binary64 a f)) = false
    rw [lit_1e20F]
    exact ieee_small_inc_absorbed a f ha h0' hf0 hf'

/-! ## Evaluation of `ieee` at the literals and on the sample states -/

theorem ieee_dadd (a b : Fp) : ieee.dadd a b = Fp.add binary64 a b := rfl

theorem ieee_dmul (a b : Fp) : ieee.dmul a b = Fp.mul binary64 a b := rfl

theorem ieee_dlt (a b : Fp) : ieee.dlt a b = Fp.lt a b := rfl

theorem ieee_dle (a b : Fp) : ieee.dle a b = Fp.le a b := rfl

theorem ieee_dne (a b : Fp) : ieee.dne a b = Fp.ne a b := rfl

theorem ieee_flt (a b : Fp) : ieee.flt a b = Fp.lt a b := rfl

theorem ieee_fle (a b : Fp) : ieee.fle a b = Fp.le a b := rfl

theorem ieee_toFloat (a : Fp) : ieee.toFloat a = Fp.conv binary32 a := rfl

theorem ieee_toDouble (a : Fp) : ieee.toDouble a = a := rfl

theorem ieee_d0 : ieee.d0 = Fp.fin 0 := rfl

theorem ieee_f0 : ieee.f0 = Fp.fin 0 := rfl

theorem ieee_d1e100 : ieee.d1e100 = Fp.fin (5147557589468029 * 2 ^ 280) := lit_1e100

theorem ieee_d1em100 : ieee.d1em100 = Fp.fin (492525077454931 / 2 ^ 381) := lit_1em100

theorem ieee_d1e20 : ieee.d1e20 = Fp.fin (10 ^ 20) := lit_1e20

theorem ieee_d1em20 : ieee.d1em20 = Fp.fin (6646139978924579 / 2 ^ 119) := lit_1em20

theorem ieee_f1e20 : ieee.f1e20 = Fp.fin 100000002004087734272 := lit_1e20F

theorem ieee_f1em20 : ieee.f1em20 = Fp.fin (1547425 / 2 ^ 87) := lit_1em20F

theorem fp_add_fin (f : FpFormat) (x y : ℚ) :
    Fp.add f (Fp.fin x) (Fp.fin y) = fround f (x + y) := rfl

theorem fp_mul_fin (f : FpFormat) (x y : ℚ) :
    Fp.mul f (Fp.fin x) (Fp.fin y) = fround f (x * y) := rfl

theorem fp_conv_fin (f : FpFormat) (x : ℚ) : Fp.conv f (Fp.fin x) = fround f x := rfl

theorem fp_lt_fin (x y : ℚ) : Fp.lt (Fp.fin x) (Fp.fin y) = decide (x < y) := rfl

theorem fp_le_fin (x y : ℚ) : Fp.le (Fp.fin x) (Fp.fin y) = decide (x ≤ y) := rfl

theorem fp_ne_fin (x y : ℚ) : Fp.ne (Fp.fin x) (Fp.fin y) = decide (x ≠ y) := rfl

theorem vsids_new_act_ieee (s : VsidsState H Fp) (var : Nat) (mult : Fp) :
    vsids_new_act ieee s var mult
      = Fp.add binary64 (s.var_act_vsids.getD var (Fp.fin 0))
          (Fp.mul binary64 s.var_inc_vsids mult) := rfl

theorem cl_new_val_ieee (s : ClActState Fp Fp) (cl : Nat) :
    cl_new_val ieee s cl
      = Fp.add binary64 s.cla_inc (s.cl_alloc.getD cl ⟨false, Fp.fin 0⟩).activity := rfl

/-- Products and sums of the sample values that are computed without rounding error. -/
theorem eval_mul_332 : Fp.mul binary64 (Fp.fin (2 ^ 332)) (Fp.fin 1) = Fp.fin (2 ^ 332) := by
  rw [fp_mul_fin, mul_one]
  exact fround_repr_eq binary64 1 332 _ (by norm_num) (by norm_num [binary64])
    (by norm_num [binary64]) (by norm_num [binary64]) (by norm_num [binary64])

theorem eval_add_332 :
    Fp.add binary64 (Fp.fin (2 ^ 332)) (Fp.fin (2 ^ 332)) = Fp.fin (2 ^ 333) := by
  rw [fp_add_fin, show ((2 : ℚ) ^ 332 + 2 ^ 332) = 2 ^ 333 by norm_num]
  exact fround_repr_eq binary64 1 333 _ (by norm_num) (by norm_num [binary64])
    (by norm_num [binary64]) (by norm_num [binary64]) (by norm_num [binary64])

theorem eval_add_66 :
    Fp.add binary64 (Fp.fin (2 ^ 66)) (Fp.fin (2 ^ 66)) = Fp.fin (2 ^ 67) := by
  rw [fp_add_fin, show ((2 : ℚ) ^ 66 + 2 ^ 66) = 2 ^ 67 by norm_num]
  exact fround_repr_eq binary64 1 67 _ (by norm_num) (by norm_num [binary64])
    (by norm_num [binary64]) (by norm_num [binary64]) (by norm_num [binary64])

theorem eval_conv_67 : Fp.conv binary32 (Fp.fin (2 ^ 67)) = Fp.fin (2 ^ 67) := by
  rw [fp_conv_fin]
  exact fround_repr_eq binary32 1 67 _ (by norm_num) (by norm_num [binary32])
    (by norm_num [binary32]) (by norm_num [binary32]) (by norm_num [binary32])

theorem eval_mul_66 :
    Fp.mul binary64 (Fp.fin (2 ^ 66)) (Fp.fin (6646139978924579 / 2 ^ 119))
      = Fp.fin (6646139978924579 / 2 ^ 53) := by
  rw [fp_mul_fin, show ((2 : ℚ) ^ 66 * (6646139978924579 / 2 ^ 119))
    = 6646139978924579 / 2 ^ 53 by norm_num]
  exact fround_repr_eq binary64 6646139978924579 (-53) _ (by norm_num)
    (by norm_num [binary64]) (by norm_num [binary64]) (by norm_num [binary64])
    (by norm_num [binary64])

theorem eval_mul_67 :
    Fp.mul binary64 (Fp.fin (2 ^ 67)) (Fp.fin (6646139978924579 / 2 ^ 119))
      = Fp.fin (6646139978924579 / 2 ^ 52) := by
  rw [fp_mul_fin, show ((2 : ℚ) ^ 67 * (6646139978924579 / 2 ^ 119))
    = 6646139978924579 / 2 ^ 52 by norm_num]
  exact fround_repr_eq binary64 6646139978924579 (-52) _ (by norm_num)
    (by norm_num [binary64]) (by norm_num [binary64]) (by norm_num [binary64])
    (by norm_num [binary64])

theorem sampleVsids_new : vsids_new_act ieee sampleVsids 0 (Fp.fin 1) = Fp.fin (2 ^ 333) := by
  rw [vsids_new_act_ieee]
  simp only [sampleVsids, List.getD_cons_zero]
  rw [eval_mul_332, eval_add_332]

theorem sampleVsids_fires :
    ieee.dlt ieee.d1e100 (vsids_new_act ieee sampleVsids 0 (Fp.fin 1)) = true := by
  rw [sampleVsids_new, ieee_d1e100, ieee_dlt, fp_lt_fin, decide_eq_true_eq]
  norm_num

theorem sampleVsids_bump_in_bounds :
    ieee.dle ieee.d0 (ieee.dmul sampleVsids.var_inc_vsids (Fp.fin 1)) = true
    ∧ ieee.dle (ieee.dmul sampleVsids.var_inc_vsids (Fp.fin 1)) ieee.d1e100 = true := by
  have h1 : ieee.dmul sampleVsids.var_inc_vsids (Fp.fin 1) = Fp.fin (2 ^ 332) := by
    rw [ieee_dmul]
    simp only [sampleVsids]
    exact eval_mul_332
  rw [h1, ieee_d1e100, ieee_d0, ieee_dle, ieee_dle, fp_le_fin, fp_le_fin, decide_eq_true_eq,
    decide_eq_true_eq]
  constructor <;> norm_num

theorem sampleVsids_in_bounds :
    ∀ a ∈ sampleVsids.var_act_vsids,
      ieee.dle ieee.d0 a = true ∧ ieee.dle a ieee.d1e100 = true := by
  intro a ha
  rw [ieee_d1e100, ieee_d0, ieee_dle, ieee_dle]
  simp only [sampleVsids, List.mem_cons, List.mem_singleton, List.not_mem_nil, or_false] at ha
  rcases ha with rfl | rfl | rfl <;>
    (rw [fp_le_fin, fp_le_fin, decide_eq_true_eq, decide_eq_true_eq]; constructor <;> norm_num)

theorem sampleVsids_below_max :
    ∀ a ∈ sampleVsids.var_act_vsids, ieee.dle a sampleVsids.max_vsids_act = true := by
  intro a ha
  rw [ieee_dle]
  simp only [sampleVsids, List.mem_cons, List.mem_singleton, List.not_mem_nil, or_false] at ha ⊢
  rcases ha with rfl | rfl | rfl <;> (rw [fp_le_fin]; exact decide_eq_true (by norm_num))

theorem sampleClAct_new (cl : Nat) (hcl : cl = 0 ∨ cl = 1) :
    cl_new_val ieee sampleClAct cl = Fp.fin (2 ^ 67) := by
  rw [cl_new_val_ieee]
  rcases hcl with rfl | rfl
  · simp only [sampleClAct, List.getD_cons_zero]
    exact eval_add_66
  · simp only [sampleClAct, List.getD_cons_succ, List.getD_cons_zero]
    exact eval_add_66

theorem sampleClAct_fires (cl : Nat) (hcl : cl = 0 ∨ cl = 1) :
    ieee.flt ieee.f1e20 (ieee.toFloat (cl_new_val ieee sampleClAct cl)) = true := by
  rw [sampleClAct_new cl hcl, ieee_toFloat, eval_conv_67, ieee_f1e20, ieee_flt, fp_lt_fin,
    decide_eq_true_eq]
  norm_num

theorem sampleClAct_inc_scaled :
    ieee.dmul sampleClAct.cla_inc ieee.d1em20 = Fp.fin (6646139978924579 / 2 ^ 53) := by
  rw [ieee_d1em20, ieee_dmul]
  simp only [sampleClAct]
  exact eval_mul_66

theorem sampleClAct_inc_ne :
    ieee.dne (ieee.dmul sampleClAct.cla_inc ieee.d1em20) ieee.d0 = true := by
  rw [sampleClAct_inc_scaled, ieee_d0, ieee_dne, fp_ne_fin, decide_eq_true_eq]
  norm_num

theorem sampleVsids_inc_scaled :
    ieee.dmul sampleVsids.var_inc_vsids ieee.d1em100 = Fp.fin (492525077454931 / 2 ^ 49) := by
  rw [ieee_d1em100, ieee_dmul]
  simp only [sampleVsids]
  rw [fp_mul_fin, show ((2 : ℚ) ^ 332 * (492525077454931 / 2 ^ 381))
    = 492525077454931 / 2 ^ 49 by norm_num]
  exact fround_repr_eq binary64 492525077454931 (-49) _ (by norm_num)
    (by norm_num [binary64]) (by norm_num [binary64]) (by norm_num [binary64])
    (by norm_num [binary64])

theorem sampleVsidsSmall_new :
    vsids_new_act ieee sampleVsidsSmall 0 Fp.nan = Fp.nan := by
  rw [vsids_new_act_ieee]
  simp only [sampleVsidsSmall, List.getD_cons_zero]
  rfl

theorem sampleClAct_in_bounds (o : Nat) (ho : o = 0 ∨ o = 1 ∨ o = 2) :
    ieee.fle ieee.f0 (clause_at ieee sampleClAct.cl_alloc o).activity = true
    ∧ ieee.fle (clause_at ieee sampleClAct.cl_alloc o).activity ieee.f1e20 = true
    ∧ ieee.dle (ieee.toDouble (clause_at ieee sampleClAct.cl_alloc o).activity) ieee.d1e20
        = true := by
  rw [ieee_f0, ieee_f1e20, ieee_d1e20, ieee_fle, ieee_fle, ieee_dle, ieee_toDouble]
  rcases ho with rfl | rfl | rfl <;>
    simp only [clause_at, sampleClAct, List.getD_cons_zero, List.getD_cons_succ] <;>
    (rw [fp_le_fin, fp_le_fin, fp_le_fin]
     exact ⟨decide_eq_true (by norm_num), decide_eq_true (by norm_num),
       decide_eq_true (by norm_num)⟩)

theorem sampleClAct_inc_in_bounds :
    ieee.dle ieee.d0 sampleClAct.cla_inc = true
    ∧ ieee.dle sampleClAct.cla_inc ieee.d1e20 = true := by
  rw [ieee_d0, ieee_d1e20, ieee_dle, ieee_dle]
  simp only [sampleClAct]
  rw [fp_le_fin, fp_le_fin]
  exact ⟨decide_eq_true (by norm_num), decide_eq_true (by norm_num)⟩

theorem sampleVsids_new_ok :
    ieee.dle (vsids_new_act ieee sampleVsids 0 (Fp.fin 1))
      (vsids_new_act ieee sampleVsids 0 (Fp.fin 1)) = true := by
  rw [sampleVsids_new, ieee_dle, fp_le_fin]
  exact decide_eq_true (le_refl _)

/-- The `double` sum `(2^-24 + 2^-40) + 1` has no rounding error. -/
theorem sampleClActRound_new :
    cl_new_val ieee sampleClActRound 0 = Fp.fin (1 / 2 ^ 24 + 1 / 2 ^ 40 + 1) := by
  rw [cl_new_val_ieee]
  simp only [sampleClActRound, List.getD_cons_zero]
  rw [fp_add_fin]
  exact fround_repr_eq binary64 1099511693313 (-40) _ (by norm_num) (by norm_num [binary64])
    (by norm_num [binary64]) (by norm_num [binary64]) (by norm_num [binary64])

/-- The conversion to `float` rounds `1 + 2^-24 + 2^-40` up to `1 + 2^-23`. -/
theorem eval_conv_round :
    Fp.conv binary32 (Fp.fin (1 / 2 ^ 24 + 1 / 2 ^ 40 + 1)) = Fp.fin (8388609 / 2 ^ 23) := by
  rw [fp_conv_fin]
  have hu : ulpExp binary32 (1 / 2 ^ 24 + 1 / 2 ^ 40 + 1) = -23 := by
    rw [ulpExp_eq binary32 _ 0 (by norm_num) (by norm_num) (by norm_num [binary32])]
    norm_num [binary32]
  have hr := roundNE_eq binary32 (1 / 2 ^ 24 + 1 / 2 ^ 40 + 1) (-23) 8388609 hu
    (by rw [abs_lt]; norm_num)
  exact fround_of_roundNE _ _ _ (by rw [hr]; norm_num) (by norm_num [binary32])
    (by norm_num [binary32])

theorem sampleClActRound_quiet :
    ieee.flt ieee.f1e20 (ieee.toFloat (cl_new_val ieee sampleClActRound 0)) = false := by
  rw [sampleClActRound_new, ieee_toFloat, eval_conv_round, ieee_f1e20, ieee_flt, fp_lt_fin]
  exact decide_eq_false (by norm_num)

theorem sampleClActRound_in_bounds :
    (ieee.fle ieee.f0 (clause_at ieee sampleClActRound.cl_alloc 0).activity = true
      ∧ ieee.dle (ieee.toDouble (clause_at ieee sampleClActRound.cl_alloc 0).activity)
          ieee.d1e20 = true)
    ∧ (ieee.dle ieee.d0 sampleClActRound.cla_inc = true
      ∧ ieee.dle sampleClActRound.cla_inc ieee.d1e20 = true) := by
  rw [ieee_f0, ieee_d0, ieee_d1e20, ieee_fle, ieee_dle, ieee_dle, ieee_dle, ieee_toDouble]
  simp only [clause_at, sampleClActRound, List.getD_cons_zero]
  rw [fp_le_fin, fp_le_fin, fp_le_fin, fp_le_fin]
  exact ⟨⟨decide_eq_true (by norm_num), decide_eq_true (by norm_num)⟩,
    ⟨decide_eq_true (by norm_num), decide_eq_true (by norm_num)⟩⟩

/-! ## Lemmas on `vsids_bump_var_act` in machine arithmetic -/

theorem vsids_heap_update_fp_acts {D : Type} (ops : HeapOpsFP H D) (s : VsidsState H D)
    (var : Nat) : (vsids_heap_update_fp ops s var).var_act_vsids = s.var_act_vsids := by
  unfold vsids_heap_update_fp
  split <;> rfl

theorem vsids_heap_update_fp_inc {D : Type} (ops : HeapOpsFP H D) (s : VsidsState H D)
    (var : Nat) : (vsids_heap_update_fp ops s var).var_inc_vsids = s.var_inc_vsids := by
  unfold vsids_heap_update_fp
  split <;> rfl

theorem vsids_heap_update_fp_max {D : Type} (ops : HeapOpsFP H D) (s : VsidsState H D)
    (var : Nat) : (vsids_heap_update_fp ops s var).max_vsids_act = s.max_vsids_act := by
  unfold vsids_heap_update_fp
  split <;> rfl

theorem vsids_add_inc_fp_getD {D F : Type} (fl : FloatOps D F) (s : VsidsState H D)
    (var : Nat) (mult : D) (hvar : var < s.var_act_vsids.length) :
    (vsids_add_inc_fp fl s var mult).var_act_vsids.getD var fl.d0
      = vsids_new_act fl s var mult := by
  simp only [vsids_add_inc_fp]
  exact getD_set_eq _ _ _ _ hvar

theorem vsids_add_inc_fp_max {D F : Type} (fl : FloatOps D F) (s : VsidsState H D)
    (var : Nat) (mult : D) (hvar : var < s.var_act_vsids.length) :
    (vsids_add_inc_fp fl s var mult).max_vsids_act
      = (if fl.dlt s.max_vsids_act (vsids_new_act fl s var mult)
          then vsids_new_act fl s var mult else s.max_vsids_act) := by
  have h := vsids_add_inc_fp_getD fl s var mult hvar
  simp only [vsids_add_inc_fp] at h ⊢
  rw [h]

theorem vsids_bump_fp_fires {D F : Type} (fl : FloatOps D F) (ops : HeapOpsFP H D)
    (s : VsidsState H D) (var : Nat) (mult : D) (hvar : var < s.var_act_vsids.length)
    (h : fl.dlt fl.d1e100 (vsids_new_act fl s var mult) = true) :
    vsids_bump_var_act_fp fl ops false s var mult
      = vsids_heap_update_fp ops (vsids_rescale_fp fl (vsids_add_inc_fp fl s var mult)) var := by
  have hf : vsids_rescale_fires_fp fl (vsids_add_inc_fp fl s var mult) var = true := by
    simp only [vsids_rescale_fires_fp, vsids_add_inc_fp_getD fl s var mult hvar]
    exact h
  simp [vsids_bump_var_act_fp, hf]

theorem vsids_bump_fp_quiet {D F : Type} (fl : FloatOps D F) (ops : HeapOpsFP H D)
    (s : VsidsState H D) (var : Nat) (mult : D) (hvar : var < s.var_act_vsids.length)
    (h : fl.dlt fl.d1e100 (vsids_new_act fl s var mult) = false) :
    vsids_bump_var_act_fp fl ops false s var mult
      = vsids_heap_update_fp ops (vsids_add_inc_fp fl s var mult) var := by
  have hf : vsids_rescale_fires_fp fl (vsids_add_inc_fp fl s var mult) var = false := by
    simp only [vsids_rescale_fires_fp, vsids_add_inc_fp_getD fl s var mult hvar]
    exact h
  simp [vsids_bump_var_act_fp, hf]

/-- C2: for `var` in range, `vsids_bump_var_act<false>(var, mult)` stores in the activity of
`var` the `double` sum `new` of the old activity and `var_inc_vsids*mult`
(`vsids_new_act`). When `new > 1e100`, every activity (that of `var` being `new`),
`max_vsids_act` (already raised to `new` if it was smaller) and `var_inc_vsids` are
multiplied by the `double` `1e-100`; when the test is false, `var_inc_vsids` and the
activity of every other variable are unchanged, the activity of `var` is `new` and
`max_vsids_act` is raised to `new` if it was smaller. So an increment that its product with
`1e-100` changes is scaled if and only if `new > 1e100`. All operations are those of the
machine type, so the statement holds with rounding, overflow and NaN. -/
theorem vsids_bump_var_act_fp_spec {D F : Type} (fl : FloatOps D F) (ops : HeapOpsFP H D)
    (s : VsidsState H D) (var : Nat) (mult : D) (hvar : var < s.var_act_vsids.length) :
    vsids_new_act fl s var mult
        = fl.dadd (s.var_act_vsids.get ⟨var, hvar⟩) (fl.dmul s.var_inc_vsids mult)
    ∧ (fl.dlt fl.d1e100 (vsids_new_act fl s var mult) = true →
        (vsids_bump_var_act_fp fl ops false s var mult).var_act_vsids
            = (s.var_act_vsids.set var (vsids_new_act fl s var mult)).map
                (fun act => fl.dmul act fl.d1em100)
        ∧ (vsids_bump_var_act_fp fl ops false s var mult).max_vsids_act
            = fl.dmul (if fl.dlt s.max_vsids_act (vsids_new_act fl s var mult)
                then vsids_new_act fl s var mult else s.max_vsids_act) fl.d1em100
        ∧ (vsids_bump_var_act_fp fl ops false s var mult).var_inc_vsids
            = fl.dmul s.var_inc_vsids fl.d1em100)
    ∧ (fl.dlt fl.d1e100 (vsids_new_act fl s var mult) = false →
        (vsids_bump_var_act_fp fl ops false s var mult).var_act_vsids
            = s.var_act_vsids.set var (vsids_new_act fl s var mult)
        ∧ (vsids_bump_var_act_fp fl ops false s var mult).max_vsids_act
            = (if fl.dlt s.max_vsids_act (vsids_new_act fl s var mult)
                then vsids_new_act fl s var mult else s.max_vsids_act)
        ∧ (vsids_bump_var_act_fp fl ops false s var mult).var_inc_vsids = s.var_inc_vsids
        ∧ (vsids_bump_var_act_fp fl ops false s var mult).var_act_vsids.getD var fl.d0
            = vsids_new_act fl s var mult
        ∧ ∀ v, v ≠ var →
            (vsids_bump_var_act_fp fl ops false s var mult).var_act_vsids.getD v fl.d0
              = s.var_act_vsids.getD v fl.d0)
    ∧ (fl.dmul s.var_inc_vsids fl.d1em100 ≠ s.var_inc_vsids →
        ((vsids_bump_var_act_fp fl ops false s var mult).var_inc_vsids
            = fl.dmul s.var_inc_vsids fl.d1em100
          ↔ fl.dlt fl.d1e100 (vsids_new_act fl s var mult) = true)) := by
  have hquiet : fl.dlt fl.d1e100 (vsids_new_act fl s var mult) = false →
      (vsids_bump_var_act_fp fl ops false s var mult).var_inc_vsids = s.var_inc_vsids := by
    intro h
    rw [vsids_bump_fp_quiet fl ops s var mult hvar h, vsids_heap_update_fp_inc]
    rfl
  have hloud : fl.dlt fl.d1e100 (vsids_new_act fl s var mult) = true →
      (vsids_bump_var_act_fp fl ops false s var mult).var_inc_vsids
        = fl.dmul s.var_inc_vsids fl.d1em100 := by
    intro h
    rw [vsids_bump_fp_fires fl ops s var mult hvar h, vsids_heap_update_fp_inc]
    rfl
  refine ⟨?_, ?_, ?_, ?_⟩
  · simp only [vsids_new_act, List.getD_eq_getElem _ _ hvar, List.get_eq_getElem]
  · intro h
    rw [vsids_bump_fp_fires fl ops s var mult hvar h, vsids_heap_update_fp_acts,
      vsids_heap_update_fp_max, vsids_heap_update_fp_inc]
    refine ⟨rfl, ?_, rfl⟩
    simp only [vsids_rescale_fp]
    rw [vsids_add_inc_fp_max fl s var mult hvar]
  · intro h
    rw [vsids_bump_fp_quiet fl ops s var mult hvar h, vsids_heap_update_fp_acts,
      vsids_heap_update_fp_max, vsids_heap_update_fp_inc]
    refine ⟨rfl, vsids_add_inc_fp_max fl s var mult hvar, rfl,
      vsids_add_inc_fp_getD fl s var mult hvar, ?_⟩
    intro v hv
    simp only [vsids_add_inc_fp]
    exact getD_set_ne _ _ _ _ _ (Ne.symm hv)
  · intro hne
    constructor
    · intro heq
      cases hf : fl.dlt fl.d1e100 (vsids_new_act fl s var mult) with
      | true => rfl
      | false =>
        rw [hquiet hf] at heq
        exact absurd heq.symm hne
    · exact hloud

/-- Evaluation of C2 on `sampleVsids` in the arithmetic `ieee`: bumping variable 0 (activity
`2^332`, increment `2^332`, multiplier 1) gives `2^333 > 1e100`, and the increment is
multiplied by `1e-100`, which gives `492525077454931 / 2^49`. -/
theorem vsids_bump_var_act_fp_spec_witness :
    (0 < sampleVsids.var_act_vsids.length)
    ∧ vsids_new_act ieee sampleVsids 0 (Fp.fin 1) = Fp.fin (2 ^ 333)
    ∧ ieee.dlt ieee.d1e100 (vsids_new_act ieee sampleVsids 0 (Fp.fin 1)) = true
    ∧ (vsids_bump_var_act_fp ieee sampleHeapFP false sampleVsids 0 (Fp.fin 1)).var_inc_vsids
        = ieee.dmul sampleVsids.var_inc_vsids ieee.d1em100
    ∧ ieee.dmul sampleVsids.var_inc_vsids ieee.d1em100
        = Fp.fin (492525077454931 / 2 ^ 49) :=
  ⟨by decide, sampleVsids_new, sampleVsids_fires,
   ((vsids_bump_var_act_fp_spec ieee sampleHeapFP sampleVsids 0 (Fp.fin 1)
      (by decide)).2.1 sampleVsids_fires).2.2,
   sampleVsids_inc_scaled⟩

/-! ## Bounds on the variable activities in machine arithmetic -/

theorem vsids_bump_fp_acts_fires {D F : Type} (fl : FloatOps D F) (ops : HeapOpsFP H D)
    (s : VsidsState H D) (var : Nat) (mult : D) (hvar : var < s.var_act_vsids.length)
    (h : fl.dlt fl.d1e100 (vsids_new_act fl s var mult) = true) :
    (vsids_bump_var_act_fp fl ops false s var mult).var_act_vsids
        = (s.var_act_vsids.set var (vsids_new_act fl s var mult)).map
            (fun act => fl.dmul act fl.d1em100)
    ∧ (vsids_bump_var_act_fp fl ops false s var mult).max_vsids_act
        = fl.dmul (if fl.dlt s.max_vsids_act (vsids_new_act fl s var mult)
            then vsids_new_act fl s var mult else s.max_vsids_act) fl.d1em100 := by
  rw [vsids_bump_fp_fires fl ops s var mult hvar h, vsids_heap_update_fp_acts,
    vsids_heap_update_fp_max]
  refine ⟨rfl, ?_⟩
  simp only [vsids_rescale_fp]
  rw [vsids_add_inc_fp_max fl s var mult hvar]

theorem vsids_bump_fp_acts_quiet {D F : Type} (fl : FloatOps D F) (ops : HeapOpsFP H D)
    (s : VsidsState H D) (var : Nat) (mult : D) (hvar : var < s.var_act_vsids.length)
    (h : fl.dlt fl.d1e100 (vsids_new_act fl s var mult) = false) :
    (vsids_bump_var_act_fp fl ops false s var mult).var_act_vsids
        = s.var_act_vsids.set var (vsids_new_act fl s var mult)
    ∧ (vsids_bump_var_act_fp fl ops false s var mult).max_vsids_act
        = (if fl.dlt s.max_vsids_act (vsids_new_act fl s var mult)
            then vsids_new_act fl s var mult else s.max_vsids_act) := by
  rw [vsids_bump_fp_quiet fl ops s var mult hvar h, vsids_heap_update_fp_acts,
    vsids_heap_update_fp_max]
  exact ⟨rfl, vsids_add_inc_fp_max fl s var mult hvar⟩

theorem vsids_old_act_mem {D F : Type} (fl : FloatOps D F) (s : VsidsState H D) (var : Nat)
    (hvar : var < s.var_act_vsids.length) :
    s.var_act_vsids.getD var fl.d0 ∈ s.var_act_vsids := by
  rw [List.getD_eq_getElem _ _ hvar]
  exact List.getElem_mem _

/-- C3: in any arithmetic that satisfies the IEEE laws, with `1e100` the `double` that the
literal of the source denotes: for `var` in range, if every variable activity lies in
`[0, 1e100]` and the `double` product `var_inc_vsids*mult` lies in `[0, 1e100]`, then after
`vsids_bump_var_act<false>(var, mult)` every variable activity lies in `[0, 1e100]` again.
The bumped activity is at most the `double` sum `1e100 + 1e100`, which is finite; if it
exceeds `1e100` the rescale brings it to at most `(1e100 + 1e100) * 1e-100` and every other
activity to at most `1e100 * 1e-100`; otherwise the failed test bounds it. -/
theorem vsids_bump_fp_keeps_bound {D F : Type} (fl : FloatOps D F) (hl : IEEELaws fl)
    (ops : HeapOpsFP H D) (s : VsidsState H D) (var : Nat) (mult : D)
    (hvar : var < s.var_act_vsids.length)
    (hacts : ∀ a ∈ s.var_act_vsids, fl.dle fl.d0 a = true ∧ fl.dle a fl.d1e100 = true)
    (hbump : fl.dle fl.d0 (fl.dmul s.var_inc_vsids mult) = true
      ∧ fl.dle (fl.dmul s.var_inc_vsids mult) fl.d1e100 = true) :
    ∀ a ∈ (vsids_bump_var_act_fp fl ops false s var mult).var_act_vsids,
      fl.dle fl.d0 a = true ∧ fl.dle a fl.d1e100 = true := by
  have hold := hacts _ (vsids_old_act_mem fl s var hvar)
  have h00 : fl.dle fl.d0 fl.d0 = true := hl.dle_left _ _ hold.1
  have hTT : fl.dle fl.d1e100 fl.d1e100 = true := hl.dle_right _ _ hold.2
  have h0T : fl.dle fl.d0 fl.d1e100 = true := hl.dle_trans _ _ _ hold.1 hold.2
  have hnew0 : fl.dle fl.d0 (vsids_new_act fl s var mult) = true :=
    hl.dle_trans _ _ _ hl.dadd_zero (hl.dadd_mono _ _ _ _ h00 hold.1 h00 hbump.1)
  have hnew2 : fl.dle (vsids_new_act fl s var mult) (fl.dadd fl.d1e100 fl.d1e100) = true :=
    hl.dadd_mono _ _ _ _ hold.1 hold.2 hbump.1 hbump.2
  have hset : ∀ a ∈ s.var_act_vsids.set var (vsids_new_act fl s var mult),
      a = vsids_new_act fl s var mult ∨ a ∈ s.var_act_vsids := by
    intro a ha
    rcases List.mem_or_eq_of_mem_set ha with h | h
    · exact Or.inr h
    · exact Or.inl h
  cases hf : fl.dlt fl.d1e100 (vsids_new_act fl s var mult) with
  | true =>
    rw [(vsids_bump_fp_acts_fires fl ops s var mult hvar hf).1]
    intro a ha
    obtain ⟨b, hb, rfl⟩ := List.mem_map.mp ha
    have hb0 : fl.dle fl.d0 b = true := by
      rcases hset b hb with h | h
      · rw [h]
        exact hnew0
      · exact (hacts b h).1
    refine ⟨hl.dle_trans _ _ _ hl.dmul_zero (hl.dmul_mono _ _ hb0), ?_⟩
    rcases hset b hb with h | h
    · rw [h]
      exact hl.dle_trans _ _ _ (hl.dmul_mono _ _ hnew2) hl.d1e100_twice_scaled
    · exact hl.dle_trans _ _ _ (hl.dmul_mono _ _ (hacts b h).2) hl.d1e100_scaled
  | false =>
    rw [(vsids_bump_fp_acts_quiet fl ops s var mult hvar hf).1]
    intro a ha
    rcases hset a ha with h | h
    · rw [h]
      exact ⟨hnew0, hl.dle_of_not_dlt _ _ hTT (hl.dle_right _ _ hnew0) hf⟩
    · exact hacts a h

/-- Evaluation of C3 on `sampleVsids` in the arithmetic `ieee`: the activities `2^332`, `2`
and `0` and the bump `2^332 * 1` lie in `[0, 1e100]`; bumping variable 0 gives `2^333`,
above `1e100`, the rescale fires, and every activity of the result lies in `[0, 1e100]`. -/
theorem vsids_bump_fp_keeps_bound_witness :
    (0 < sampleVsids.var_act_vsids.length)
    ∧ (∀ a ∈ sampleVsids.var_act_vsids,
        ieee.dle ieee.d0 a = true ∧ ieee.dle a ieee.d1e100 = true)
    ∧ (ieee.dle ieee.d0 (ieee.dmul sampleVsids.var_inc_vsids (Fp.fin 1)) = true
        ∧ ieee.dle (ieee.dmul sampleVsids.var_inc_vsids (Fp.fin 1)) ieee.d1e100 = true)
    ∧ ieee.dlt ieee.d1e100 (vsids_new_act ieee sampleVsids 0 (Fp.fin 1)) = true
    ∧ ∀ a ∈ (vsids_bump_var_act_fp ieee sampleHeapFP false sampleVsids 0
          (Fp.fin 1)).var_act_vsids,
        ieee.dle ieee.d0 a = true ∧ ieee.dle a ieee.d1e100 = true :=
  ⟨by decide, sampleVsids_in_bounds, sampleVsids_bump_in_bounds, sampleVsids_fires,
   vsids_bump_fp_keeps_bound ieee ieee_laws sampleHeapFP sampleVsids 0 (Fp.fin 1)
     (by decide) sampleVsids_in_bounds sampleVsids_bump_in_bounds⟩

/-- C18 (as stated, refuted): in `sampleVsidsSmall` the maximum `2` is at least every
activity (`1` and `2`); after `vsids_bump_var_act<false>(0, NaN)` the activity of variable 0
is NaN (`1 + 1 * NaN`), the test `NaN > max_vsids_act` is false, so `max_vsids_act` is
still `2`, the test `NaN > 1e100` is false, so nothing is rescaled, and `NaN <= 2` is false:
the maximum is no longer at least every activity. -/
theorem vsids_bump_fp_nan_breaks_max :
    (0 < sampleVsidsSmall.var_act_vsids.length)
    ∧ (∀ a ∈ sampleVsidsSmall.var_act_vsids,
        ieee.dle a sampleVsidsSmall.max_vsids_act = true)
    ∧ (vsids_bump_var_act_fp ieee sampleHeapFP false sampleVsidsSmall 0
          Fp.nan).var_act_vsids = [Fp.nan, Fp.fin 2]
    ∧ (vsids_bump_var_act_fp ieee sampleHeapFP false sampleVsidsSmall 0
          Fp.nan).max_vsids_act = Fp.fin 2
    ∧ ¬ (∀ a ∈ (vsids_bump_var_act_fp ieee sampleHeapFP false sampleVsidsSmall 0
            Fp.nan).var_act_vsids,
          ieee.dle a (vsids_bump_var_act_fp ieee sampleHeapFP false
            sampleVsidsSmall 0 Fp.nan).max_vsids_act = true) := by
  have hq : ieee.dlt ieee.d1e100 (vsids_new_act ieee sampleVsidsSmall 0 Fp.nan) = false := by
    rw [sampleVsidsSmall_new, ieee_d1e100, ieee_dlt]
    rfl
  have h := vsids_bump_fp_acts_quiet ieee sampleHeapFP sampleVsidsSmall 0 Fp.nan
    (by decide) hq
  rw [sampleVsidsSmall_new] at h
  have hacts : (vsids_bump_var_act_fp ieee sampleHeapFP false sampleVsidsSmall 0
      Fp.nan).var_act_vsids = [Fp.nan, Fp.fin 2] := by
    rw [h.1]
    simp only [sampleVsidsSmall, List.set_cons_zero]
  have hmax : (vsids_bump_var_act_fp ieee sampleHeapFP false sampleVsidsSmall 0
      Fp.nan).max_vsids_act = Fp.fin 2 := by
    rw [h.2, ieee_dlt]
    simp only [sampleVsidsSmall]
    rfl
  refine ⟨by decide, ?_, hacts, hmax, ?_⟩
  · intro a ha
    rw [ieee_dle]
    simp only [sampleVsidsSmall, List.mem_cons, List.mem_singleton, List.not_mem_nil,
      or_false] at ha ⊢
    rcases ha with rfl | rfl <;> (rw [fp_le_fin]; exact decide_eq_true (by norm_num))
  · rw [hacts, hmax]
    intro hall
    have h1 := hall Fp.nan (List.mem_cons_self _ _)
    rw [ieee_dle] at h1
    exact Bool.noConfusion h1

/-- C18 (amended): in any arithmetic that satisfies the IEEE laws, for `var` in range, if
`max_vsids_act >= a` holds for every variable activity `a`, and the bumped activity
`var_act_vsids[var] + var_inc_vsids*mult` is not NaN (it compares `<=` to itself), then
after `vsids_bump_var_act<false>(var, mult)`, with or without a rescale, `max_vsids_act` is
again at least every variable activity. Infinite values are covered. -/
theorem vsids_bump_fp_keeps_max_bound {D F : Type} (fl : FloatOps D F) (hl : IEEELaws fl)
    (ops : HeapOpsFP H D) (s : VsidsState H D) (var : Nat) (mult : D)
    (hvar : var < s.var_act_vsids.length)
    (hmax : ∀ a ∈ s.var_act_vsids, fl.dle a s.max_vsids_act = true)
    (hok : fl.dle (vsids_new_act fl s var mult) (vsids_new_act fl s var mult) = true) :
    ∀ a ∈ (vsids_bump_var_act_fp fl ops false s var mult).var_act_vsids,
      fl.dle a (vsids_bump_var_act_fp fl ops false s var mult).max_vsids_act = true := by
  have hmm : fl.dle s.max_vsids_act s.max_vsids_act = true :=
    hl.dle_right _ _ (hmax _ (vsids_old_act_mem fl s var hvar))
  have hset : ∀ a ∈ s.var_act_vsids.set var (vsids_new_act fl s var mult),
      fl.dle a (if fl.dlt s.max_vsids_act (vsids_new_act fl s var mult)
        then vsids_new_act fl s var mult else s.max_vsids_act) = true := by
    intro a ha
    cases hlt : fl.dlt s.max_vsids_act (vsids_new_act fl s var mult) with
    | true =>
      rw [if_pos rfl]
      rcases List.mem_or_eq_of_mem_set ha with h | h
      · exact hl.dle_trans _ _ _ (hmax a h) (hl.dle_of_dlt _ _ hlt)
      · rw [h]
        exact hok
    | false =>
      rw [if_neg (by simp)]
      rcases List.mem_or_eq_of_mem_set ha with h | h
      · exact hmax a h
      · rw [h]
        exact hl.dle_of_not_dlt _ _ hmm hok hlt
  cases hf : fl.dlt fl.d1e100 (vsids_new_act fl s var mult) with
  | true =>
    rw [(vsids_bump_fp_acts_fires fl ops s var mult hvar hf).1,
      (vsids_bump_fp_acts_fires fl ops s var mult hvar hf).2]
    intro a ha
    obtain ⟨b, hb, rfl⟩ := List.mem_map.mp ha
    exact hl.dmul_mono _ _ (hset b hb)
  | false =>
    rw [(vsids_bump_fp_acts_quiet fl ops s var mult hvar hf).1,
      (vsids_bump_fp_acts_quiet fl ops s var mult hvar hf).2]
    exact hset

/-- Evaluation of the amended C18 on `sampleVsids` in the arithmetic `ieee`: the maximum
`2^332` is at least the activities `2^332`, `2` and `0`; bumping variable 0 with multiplier 1
gives `2^333`, which is not NaN and above `1e100`, so the rescale fires, and the maximum of
the result is at least every activity of the result. -/
theorem vsids_bump_fp_keeps_max_bound_witness :
    (0 < sampleVsids.var_act_vsids.length)
    ∧ (∀ a ∈ sampleVsids.var_act_vsids, ieee.dle a sampleVsids.max_vsids_act = true)
    ∧ ieee.dle (vsids_new_act ieee sampleVsids 0 (Fp.fin 1))
        (vsids_new_act ieee sampleVsids 0 (Fp.fin 1)) = true
    ∧ ieee.dlt ieee.d1e100 (vsids_new_act ieee sampleVsids 0 (Fp.fin 1)) = true
    ∧ ∀ a ∈ (vsids_bump_var_act_fp ieee sampleHeapFP false sampleVsids 0
          (Fp.fin 1)).var_act_vsids,
        ieee.dle a (vsids_bump_var_act_fp ieee sampleHeapFP false sampleVsids 0
          (Fp.fin 1)).max_vsids_act = true :=
  ⟨by decide, sampleVsids_below_max, sampleVsids_new_ok, sampleVsids_fires,
   vsids_bump_fp_keeps_max_bound ieee ieee_laws sampleHeapFP sampleVsids 0 (Fp.fin 1)
     (by decide) sampleVsids_below_max sampleVsids_new_ok⟩

/-! ## Lemmas on `bump_cl_act` in machine arithmetic -/

theorem clause_at_set_eq {D F : Type} (fl : FloatOps D F) (alloc : List (ClauseFP F))
    (o : Nat) (c : ClauseFP F) (ho : o < alloc.length) :
    clause_at fl (alloc.set o c) o = c :=
  getD_set_eq _ _ _ _ ho

theorem clause_at_set_ne {D F : Type} (fl : FloatOps D F) (alloc : List (ClauseFP F))
    (offs o : Nat) (c : ClauseFP F) (h : offs ≠ o) :
    clause_at fl (alloc.set offs c) o = clause_at fl alloc o :=
  getD_set_ne _ _ _ _ _ h

theorem scale_cl_act_fp_length {D F : Type} (fl : FloatOps D F) (alloc : List (ClauseFP F))
    (offs : Nat) : (scale_cl_act_fp fl alloc offs).length = alloc.length := by
  simp [scale_cl_act_fp]

theorem scale_cl_act_fp_at {D F : Type} (fl : FloatOps D F) (alloc : List (ClauseFP F))
    (offs o : Nat) (ho : o < alloc.length) :
    clause_at fl (scale_cl_act_fp fl alloc offs) o
      = if offs = o then
          { clause_at fl alloc o with
            activity := fl.fmul (clause_at fl alloc o).activity fl.f1em20 }
        else clause_at fl alloc o := by
  by_cases h : offs = o
  · subst h
    rw [if_pos rfl]
    exact clause_at_set_eq fl _ _ _ ho
  · rw [if_neg h]
    exact clause_at_set_ne fl _ _ _ _ h

/-- The rescale loop over a tier multiplies the activity of the clause at an offset `o` of
the arena by `static_cast<float>(1e-20)` once for every occurrence of `o` in the tier, and
leaves its other fields alone. -/
theorem foldl_scale_cl_act_fp_at {D F : Type} (fl : FloatOps D F) (l : List Nat)
    (alloc : List (ClauseFP F)) (o : Nat) (ho : o < alloc.length) :
    clause_at fl (l.foldl (scale_cl_act_fp fl) alloc) o
      = { clause_at fl alloc o with
          activity := (fun a => fl.fmul a fl.f1em20)^[l.count o]
            (clause_at fl alloc o).activity } := by
  induction l generalizing alloc with
  | nil => simp
  | cons a t ih =>
    rw [List.foldl_cons, ih _ (by rw [scale_cl_act_fp_length]; exact ho),
      scale_cl_act_fp_at fl alloc a o ho]
    by_cases h : a = o
    · subst h
      rw [if_pos rfl, List.count_cons_self, Function.iterate_succ_apply]
    · rw [if_neg h, List.count_cons_of_ne (fun e => h e.symm)]

/-- Repeated scaling keeps a `float` at or below `1e20F`. -/
theorem iterate_scale_le {D F : Type} (fl : FloatOps D F) (hl : IEEELaws fl) (k : Nat)
    (x : F) (hx : fl.fle x fl.f1e20 = true) :
    fl.fle ((fun a => fl.fmul a fl.f1em20)^[k] x) fl.f1e20 = true := by
  induction k generalizing x with
  | zero => exact hx
  | succ n ih =>
    rw [Function.iterate_succ_apply]
    apply ih
    exact hl.fle_trans _ _ _
      (hl.fmul_mono _ _ (hl.fle_trans _ _ _ hx hl.f1e20_le_sum)) hl.sum_scaled

/-- At least one scaling brings a `float` that is at most `(float)(1e20 + 1e20F)` to at
most `1e20F`. -/
theorem iterate_scale_sum_le {D F : Type} (fl : FloatOps D F) (hl : IEEELaws fl) (k : Nat)
    (hk : k ≠ 0) (x : F)
    (hx : fl.fle x (fl.toFloat (fl.dadd fl.d1e20 (fl.toDouble fl.f1e20))) = true) :
    fl.fle ((fun a => fl.fmul a fl.f1em20)^[k] x) fl.f1e20 = true := by
  obtain ⟨n, rfl⟩ := Nat.exists_eq_succ_of_ne_zero hk
  rw [Function.iterate_succ_apply]
  exact iterate_scale_le fl hl n _ (hl.fle_trans _ _ _ (hl.fmul_mono _ _ hx) hl.sum_scaled)

theorem bump_cl_act_fp_quiet {D F : Type} (fl : FloatOps D F) (s : ClActState D F) (cl : Nat)
    (hcl : cl < s.cl_alloc.length) (hrem : (clause_at fl s.cl_alloc cl).removed = false)
    (hf : fl.flt fl.f1e20 (fl.toFloat (cl_new_val fl s cl)) = false) :
    bump_cl_act_fp fl false s cl
      = some { s with
          cl_alloc := s.cl_alloc.set cl
            { clause_at fl s.cl_alloc cl with activity := fl.toFloat (cl_new_val fl s cl) },
          max_cl_act := if fl.dlt s.max_cl_act (cl_new_val fl s cl)
            then cl_new_val fl s cl else s.max_cl_act } := by
  simp only [bump_cl_act_fp, hrem, Bool.false_eq_true, if_false,
    clause_at_set_eq fl _ _ _ hcl, hf]

theorem bump_cl_act_fp_fires {D F : Type} (fl : FloatOps D F) (s : ClActState D F) (cl : Nat)
    (hcl : cl < s.cl_alloc.length) (hrem : (clause_at fl s.cl_alloc cl).removed = false)
    (hf : fl.flt fl.f1e20 (fl.toFloat (cl_new_val fl s cl)) = true)
    (hne : fl.dne (fl.dmul s.cla_inc fl.d1em20) fl.d0 = true) :
    bump_cl_act_fp fl false s cl
      = some { s with
          cl_alloc := s.longRedCls2.foldl (scale_cl_act_fp fl) (s.cl_alloc.set cl
            { clause_at fl s.cl_alloc cl with activity := fl.toFloat (cl_new_val fl s cl) }),
          cla_inc := fl.dmul s.cla_inc fl.d1em20,
          max_cl_act := fl.dmul (if fl.dlt s.max_cl_act (cl_new_val fl s cl)
            then cl_new_val fl s cl else s.max_cl_act) fl.d1em20 } := by
  simp only [bump_cl_act_fp, hrem, Bool.false_eq_true, if_false,
    clause_at_set_eq fl _ _ _ hcl, hf, hne, if_true]

/-- C13 (as stated, refuted), two states. In `sampleClAct` the clause at offset 0 is a
non-removed learnt clause of tier `longRedCls[0]`, all learnt activities (`2^66`, `2^66`,
`2^10`) lie in `[0, 1e20]` and `cla_inc = 2^66` lies in `[0, 1e20]`. `bump_cl_act<false>`
sets the activity to `2^67`, which exceeds `1e20F`, and rescales the clauses of
`longRedCls[2]` only: the activity of the clause stays `2^67`, above `1e20F`, while
`max_cl_act` is scaled to `2^67 * 1e-20 = 6646139978924579 / 2^52`, below the activity.
In `sampleClActRound` the clause at offset 0 is a non-removed clause of `longRedCls[2]`
with activity `1`, and `cla_inc = 2^-24 + 2^-40`: the `double` `new_val` is
`1 + 2^-24 + 2^-40`, the stored `float` activity is its rounding `1 + 2^-23`, nothing is
rescaled, `max_cl_act` becomes `new_val`, and the activity is above `max_cl_act`. -/
theorem bump_cl_act_fp_tier0_exceeds :
    (clause_at ieee sampleClAct.cl_alloc 0).removed = false
    ∧ 0 ∈ sampleClAct.longRedCls0
    ∧ (∀ o ∈ sampleClAct.longRedCls0 ++ sampleClAct.longRedCls1 ++ sampleClAct.longRedCls2,
        ieee.fle ieee.f0 (clause_at ieee sampleClAct.cl_alloc o).activity = true
        ∧ ieee.dle (ieee.toDouble (clause_at ieee sampleClAct.cl_alloc o).activity)
            ieee.d1e20 = true)
    ∧ (ieee.dle ieee.d0 sampleClAct.cla_inc = true
        ∧ ieee.dle sampleClAct.cla_inc ieee.d1e20 = true)
    ∧ (∃ s', bump_cl_act_fp ieee false sampleClAct 0 = some s'
        ∧ (clause_at ieee s'.cl_alloc 0).activity = Fp.fin (2 ^ 67)
        ∧ s'.max_cl_act = Fp.fin (6646139978924579 / 2 ^ 52))
    ∧ ieee.flt ieee.f1e20 (Fp.fin (2 ^ 67)) = true
    ∧ ieee.dle (ieee.toDouble (Fp.fin (2 ^ 67))) (Fp.fin (6646139978924579 / 2 ^ 52))
        = false
    ∧ (clause_at ieee sampleClActRound.cl_alloc 0).removed = false
    ∧ 0 ∈ sampleClActRound.longRedCls2
    ∧ (ieee.fle ieee.f0 (clause_at ieee sampleClActRound.cl_alloc 0).activity = true
        ∧ ieee.dle (ieee.toDouble (clause_at ieee sampleClActRound.cl_alloc 0).activity)
            ieee.d1e20 = true)
    ∧ (ieee.dle ieee.d0 sampleClActRound.cla_inc = true
        ∧ ieee.dle sampleClActRound.cla_inc ieee.d1e20 = true)
    ∧ (∃ s', bump_cl_act_fp ieee false sampleClActRound 0 = some s'
        ∧ (clause_at ieee s'.cl_alloc 0).activity = Fp.fin (8388609 / 2 ^ 23)
        ∧ s'.max_cl_act = Fp.fin (1 / 2 ^ 24 + 1 / 2 ^ 40 + 1))
    ∧ ieee.dle (ieee.toDouble (Fp.fin (8388609 / 2 ^ 23)))
        (Fp.fin (1 / 2 ^ 24 + 1 / 2 ^ 40 + 1)) = false := by
  refine ⟨rfl, by simp [sampleClAct], ?_, sampleClAct_inc_in_bounds, ?_, ?_, ?_, rfl,
    by simp [sampleClActRound], sampleClActRound_in_bounds.1, sampleClActRound_in_bounds.2,
    ?_, ?_⟩
  · intro o ho
    simp only [sampleClAct, List.cons_append, List.nil_append, List.mem_cons,
      List.mem_singleton, List.not_mem_nil, or_false] at ho
    have h := sampleClAct_in_bounds o ho
    exact ⟨h.1, h.2.2⟩
  · rw [bump_cl_act_fp_fires ieee sampleClAct 0 (by decide) rfl
      (sampleClAct_fires 0 (Or.inl rfl)) sampleClAct_inc_ne]
    refine ⟨_, rfl, ?_, ?_⟩
    · have hcount : sampleClAct.longRedCls2.count 0 = 0 := by decide
      simp only []
      rw [foldl_scale_cl_act_fp_at ieee _ _ 0 (by simp [sampleClAct]),
        clause_at_set_eq ieee _ _ _ (by decide), hcount, sampleClAct_new 0 (Or.inl rfl),
        ieee_toFloat, eval_conv_67]
      rfl
    · simp only []
      rw [sampleClAct_new 0 (Or.inl rfl), ieee_dlt]
      simp only [sampleClAct]
      rw [fp_lt_fin, decide_eq_true (by norm_num : (2 : ℚ) ^ 66 < 2 ^ 67), if_pos rfl,
        ieee_d1em20, ieee_dmul, eval_mul_67]
  · rw [ieee_f1e20, ieee_flt, fp_lt_fin]
    exact decide_eq_true (by norm_num)
  · rw [ieee_toDouble, ieee_dle, fp_le_fin]
    exact decide_eq_false (by norm_num)
  · rw [bump_cl_act_fp_quiet ieee sampleClActRound 0 (by decide) rfl sampleClActRound_quiet]
    refine ⟨_, rfl, ?_, ?_⟩
    · simp only []
      rw [clause_at_set_eq ieee _ _ _ (by decide), sampleClActRound_new, ieee_toFloat,
        eval_conv_round]
    · simp only []
      rw [sampleClActRound_new, ieee_dlt]
      simp only [sampleClActRound]
      rw [fp_lt_fin, decide_eq_true (by norm_num : (1 : ℚ) < 1 / 2 ^ 24 + 1 / 2 ^ 40 + 1),
        if_pos rfl]
  · rw [ieee_toDouble, ieee_dle, fp_le_fin]
    exact decide_eq_false (by norm_num)

/-- C13 (amended): in any arithmetic that satisfies the IEEE laws, in the default build, for
a non-removed clause `cl` of the arena that is stored in the third tier `longRedCls[2]`: if
the activity of `cl` lies in `[0, 1e20F]` and `0 <= cla_inc <= 1e20`, then
`bump_cl_act<false>(cl)` returns, and afterwards the activity of `cl` is at most `1e20F`
(the `float` that the literal of the test denotes). The assertion `cla_inc != 0` cannot
stop the call: a `cla_inc` whose product with `1e-20` is zero is too small to lift the
activity above `1e20F`. -/
theorem bump_cl_act_fp_tier2_bound {D F : Type} (fl : FloatOps D F) (hl : IEEELaws fl)
    (s : ClActState D F) (cl : Nat)
    (hcl : cl < s.cl_alloc.length)
    (hrem : (clause_at fl s.cl_alloc cl).removed = false)
    (hmem : cl ∈ s.longRedCls2)
    (hact : fl.fle fl.f0 (clause_at fl s.cl_alloc cl).activity = true
      ∧ fl.fle (clause_at fl s.cl_alloc cl).activity fl.f1e20 = true)
    (hinc : fl.dle fl.d0 s.cla_inc = true ∧ fl.dle s.cla_inc fl.d1e20 = true) :
    ∃ s', bump_cl_act_fp fl false s cl = some s'
      ∧ fl.fle (clause_at fl s'.cl_alloc cl).activity fl.f1e20 = true := by
  have hk : s.longRedCls2.count cl ≠ 0 := by
    have := List.count_pos_iff.mpr hmem
    omega
  have hd0 : fl.dle fl.d0 (fl.toDouble (clause_at fl s.cl_alloc cl).activity) = true :=
    hl.dle_trans _ _ _ hl.toDouble_zero (hl.toDouble_mono _ _ hact.1)
  have hsum : fl.fle (fl.toFloat (cl_new_val fl s cl))
      (fl.toFloat (fl.dadd fl.d1e20 (fl.toDouble fl.f1e20))) = true :=
    hl.toFloat_mono _ _
      (hl.dadd_mono _ _ _ _ hinc.1 hinc.2 hd0 (hl.toDouble_mono _ _ hact.2))
  have hlen : cl < (s.cl_alloc.set cl
      { clause_at fl s.cl_alloc cl with
        activity := fl.toFloat (cl_new_val fl s cl) }).length := by
    rw [List.length_set]
    exact hcl
  cases hf : fl.flt fl.f1e20 (fl.toFloat (cl_new_val fl s cl)) with
  | true =>
    have hne : fl.dne (fl.dmul s.cla_inc fl.d1em20) fl.d0 = true := by
      cases h0 : fl.dne (fl.dmul s.cla_inc fl.d1em20) fl.d0 with
      | true => rfl
      | false =>
        have habs := hl.small_inc_absorbed _ _ hinc.1 h0 hact.1 hact.2
        have hf2 : fl.flt fl.f1e20 (fl.toFloat (cl_new_val fl s cl)) = false := habs
        rw [hf] at hf2
        exact Bool.noConfusion hf2
    rw [bump_cl_act_fp_fires fl s cl hcl hrem hf hne]
    refine ⟨_, rfl, ?_⟩
    simp only [foldl_scale_cl_act_fp_at fl _ _ _ hlen, clause_at_set_eq fl _ _ _ hcl]
    exact iterate_scale_sum_le fl hl _ hk _ hsum
  | false =>
    rw [bump_cl_act_fp_quiet fl s cl hcl hrem hf]
    refine ⟨_, rfl, ?_⟩
    simp only [clause_at_set_eq fl _ _ _ hcl]
    exact hl.fle_of_not_flt _ _ (hl.fle_left _ _ hl.f1e20_le_sum) (hl.fle_left _ _ hsum) hf

/-- Evaluation of the amended C13 on `sampleClAct` in the arithmetic `ieee`: the clause at
offset 1 is a non-removed clause of `longRedCls[2]` with activity `2^66`, and
`cla_inc = 2^66`; the new activity `2^67` exceeds `1e20F`, so the rescale fires, and the
activity of the result is at most `1e20F`. -/
theorem bump_cl_act_fp_tier2_bound_witness :
    (1 < sampleClAct.cl_alloc.length)
    ∧ (clause_at ieee sampleClAct.cl_alloc 1).removed = false
    ∧ 1 ∈ sampleClAct.longRedCls2
    ∧ (ieee.fle ieee.f0 (clause_at ieee sampleClAct.cl_alloc 1).activity = true
        ∧ ieee.fle (clause_at ieee sampleClAct.cl_alloc 1).activity ieee.f1e20 = true)
    ∧ (ieee.dle ieee.d0 sampleClAct.cla_inc = true
        ∧ ieee.dle sampleClAct.cla_inc ieee.d1e20 = true)
    ∧ ieee.flt ieee.f1e20 (ieee.toFloat (cl_new_val ieee sampleClAct 1)) = true
    ∧ ∃ s', bump_cl_act_fp ieee false sampleClAct 1 = some s'
        ∧ ieee.fle (clause_at ieee s'.cl_alloc 1).activity ieee.f1e20 = true :=
  ⟨by decide, rfl, by simp [sampleClAct],
   ⟨(sampleClAct_in_bounds 1 (Or.inr (Or.inl rfl))).1,
    (sampleClAct_in_bounds 1 (Or.inr (Or.inl rfl))).2.1⟩,
   sampleClAct_inc_in_bounds, sampleClAct_fires 1 (Or.inr rfl),
   bump_cl_act_fp_tier2_bound ieee ieee_laws sampleClAct 1
     (by decide) rfl (by simp [sampleClAct])
     ⟨(sampleClAct_in_bounds 1 (Or.inr (Or.inl rfl))).1,
      (sampleClAct_in_bounds 1 (Or.inr (Or.inl rfl))).2.1⟩
     sampleClAct_inc_in_bounds⟩

/-- C19: for every state and variable `x`, and each of the strategies vsids, maple and rnd.
A variable that is already present is never inserted a second time: when `inHeap(x)` holds
(heaps), respectively when the bitmap entry of `x` is not zero (rnd), the call changes
nothing. For the heaps, given that the `Heap::insert` performed by the call makes
`inHeap(x)` true, calling `insert_var_order(x, t)` twice in a row gives the same state as
calling it once, and after one call `x` is in the heap; the bitmap of the random strategy is
not read, so nothing is assumed about it. For rnd, given that `x` is in range of the
bitmap, two calls give the same state as one, after one call the bitmap entry of `x` is
set, and `x` is in the worklist when it was pushed. -/
theorem insert_var_order_idempotent (ops : HeapOps H) (s : Searcher H R) (x : Nat) :
    ((ops.inHeap s.order_heap_vsids x = true →
          insert_var_order_type ops s x branch.vsids = s)
      ∧ ((ops.inHeap s.order_heap_vsids x = false →
            ops.inHeap (ops.insert s.var_act_vsids s.order_heap_vsids x) x = true) →
          insert_var_order_type ops (insert_var_order_type ops s x branch.vsids) x branch.vsids
              = insert_var_order_type ops s x branch.vsids
          ∧ ops.inHeap (insert_var_order_type ops s x branch.vsids).order_heap_vsids x = true))
    ∧ ((ops.inHeap s.order_heap_maple x = true →
          insert_var_order_type ops s x branch.maple = s)
      ∧ ((ops.inHeap s.order_heap_maple x = false →
            ops.inHeap (ops.insert s.var_act_maple s.order_heap_maple x) x = true) →
          insert_var_order_type ops (insert_var_order_type ops s x branch.maple) x branch.maple
              = insert_var_order_type ops s x branch.maple
          ∧ ops.inHeap (insert_var_order_type ops s x branch.maple).order_heap_maple x = true))
    ∧ ((s.order_heap_rnd_inside.getD x 0 ≠ 0 →
          insert_var_order_type ops s x branch.rnd = s)
      ∧ (x < s.order_heap_rnd_inside.length →
          insert_var_order_type ops (insert_var_order_type ops s x branch.rnd) x branch.rnd
              = insert_var_order_type ops s x branch.rnd
          ∧ (insert_var_order_type ops s x branch.rnd).order_heap_rnd_inside.getD x 0 ≠ 0
          ∧ (s.order_heap_rnd_inside.getD x 0 = 0 →
              x ∈ (insert_var_order_type ops s x branch.rnd).order_heap_rnd))) := by
  refine ⟨?_, ?_, ?_⟩
  · cases h : ops.inHeap s.order_heap_vsids x with
    | true =>
      have hs : insert_var_order_type ops s x branch.vsids = s := by
        simp [insert_var_order_type, h]
      rw [hs, hs]
      exact ⟨fun _ => rfl, fun _ => ⟨rfl, h⟩⟩
    | false =>
      have hs : insert_var_order_type ops s x branch.vsids
          = { s with order_heap_vsids := ops.insert s.var_act_vsids s.order_heap_vsids x } := by
        simp [insert_var_order_type, h]
      rw [hs]
      refine ⟨fun hc => Bool.noConfusion hc, fun hins => ⟨?_, hins rfl⟩⟩
      simp [insert_var_order_type, hins rfl]
  · cases h : ops.inHeap s.order_heap_maple x with
    | true =>
      have hs : insert_var_order_type ops s x branch.maple = s := by
        simp [insert_var_order_type, h]
      rw [hs, hs]
      exact ⟨fun _ => rfl, fun _ => ⟨rfl, h⟩⟩
    | false =>
      have hs : insert_var_order_type ops s x branch.maple
          = { s with order_heap_maple := ops.insert s.var_act_maple s.order_heap_maple x } := by
        simp [insert_var_order_type, h]
      rw [hs]
      refine ⟨fun hc => Bool.noConfusion hc, fun hins => ⟨?_, hins rfl⟩⟩
      simp [insert_var_order_type, hins rfl]
  · by_cases h : s.order_heap_rnd_inside.getD x 0 = 0
    · have hs : insert_var_order_type ops s x branch.rnd
          = { s with
              order_heap_rnd_inside := s.order_heap_rnd_inside.set x 1,
              order_heap_rnd := s.order_heap_rnd ++ [x] } := by
        simp only [insert_var_order_type, h, if_true]
      rw [hs]
      refine ⟨fun hc => absurd h hc, fun hx => ⟨?_, ?_, ?_⟩⟩
      · simp only [insert_var_order_type, getD_set_eq _ _ _ _ hx]
        simp
      · simp only [getD_set_eq _ _ _ _ hx]
        exact Nat.one_ne_zero
      · intro _
        simp
    · have hs : insert_var_order_type ops s x branch.rnd = s := by
        simp only [insert_var_order_type, h, if_false]
      rw [hs, hs]
      exact ⟨fun _ => rfl, fun _ => ⟨rfl, h, fun h0 => absurd h0 h⟩⟩

/-- Evaluation of C19 on `sampleState` with the list heap, whose `insert` puts the element
in the list: variable 2 is not in the vsids heap and inserting it twice equals inserting it
once; variable 0 is in the vsids heap and the call changes nothing; variable 2 is in range
of the bitmap with entry 0, and after the call for rnd it is in the worklist; variable 1
has its bitmap entry set and the call for rnd changes nothing. -/
theorem insert_var_order_idempotent_witness :
    (sampleHeap.inHeap sampleState.order_heap_vsids 2 = false)
    ∧ (insert_var_order_type sampleHeap
          (insert_var_order_type sampleHeap sampleState 2 branch.vsids) 2 branch.vsids
        = insert_var_order_type sampleHeap sampleState 2 branch.vsids
      ∧ sampleHeap.inHeap
          (insert_var_order_type sampleHeap sampleState 2 branch.vsids).order_heap_vsids 2
          = true)
    ∧ (sampleHeap.inHeap sampleState.order_heap_vsids 0 = true
      ∧ insert_var_order_type sampleHeap sampleState 0 branch.vsids = sampleState)
    ∧ (2 < sampleState.order_heap_rnd_inside.length
      ∧ sampleState.order_heap_rnd_inside.getD 2 0 = 0
      ∧ 2 ∈ (insert_var_order_type sampleHeap sampleState 2 branch.rnd).order_heap_rnd)
    ∧ (sampleState.order_heap_rnd_inside.getD 1 0 ≠ 0
      ∧ insert_var_order_type sampleHeap sampleState 1 branch.rnd = sampleState) :=
  ⟨by decide,
   (insert_var_order_idempotent sampleHeap sampleState 2).1.2
     (fun _ => by simp [sampleHeap]),
   ⟨by decide, (insert_var_order_idempotent sampleHeap sampleState 0).1.1 (by decide)⟩,
   ⟨by decide, by decide,
    ((insert_var_order_idempotent sampleHeap sampleState 2).2.2.2 (by decide)).2.2
      (by decide)⟩,
   ⟨by decide, (insert_var_order_idempotent sampleHeap sampleState 1).2.2.1 (by decide)⟩⟩

end CMSat
